import Mathlib

/-!
Verification development for the adresu-kit policy package (Go).

Shallow embedding conventions:
* Go `time.Time` / `time.Duration` values are rationals (ℚ); the zero time is `0`.
* Go `float64` quantities (rates, ratios, token counts) are rationals; the
  arithmetic the filters perform on them stays within small exactly
  representable values, so rational arithmetic mirrors the float expressions.
* The hashicorp `expirable.LRU` caches are modelled as association lists keyed
  by strings.  Capacity eviction and TTL expiry are not observable within a
  single `Match` call (time is fixed at `now` for the call), so the model keeps
  only the key/value behaviour of `Get`/`Add`.
* `golang.org/x/time/rate.Limiter` is an external collaborator of the
  repository (spec section 4.2, TokenBucketLimiter).  It is modelled as a lazy
  token bucket: refill from elapsed time, capped at the burst, consuming one
  token on a successful `Allow`.
* Go `nil` byte slices (`net.IP`, `net.IPMask`) are modelled as `[]`.
-/

/-! ## Shared primitives: cache, token bucket, events, request metadata -/

/-- Association-list model of the string-keyed `expirable.LRU` cache. -/
abbrev Cache (V : Type) : Type := List (String × V)

namespace Cache

/-- `Get`: first binding for the key, if any. -/
def get {V : Type} (c : Cache V) (k : String) : Option V :=
  (c.find? (fun e => e.1 == k)).map (fun e => e.2)

/-- `Add`: bind the key, replacing any previous binding. -/
def add {V : Type} (c : Cache V) (k : String) (v : V) : Cache V :=
  (k, v) :: c.filter (fun e => e.1 != k)

theorem get_add_self {V : Type} (c : Cache V) (k : String) (v : V) :
    (c.add k v).get k = some v := by
  simp [get, add, List.find?]

theorem get_add_ne {V : Type} (c : Cache V) (k k2 : String) (v : V) (h : k2 ≠ k) :
    (c.add k v).get k2 = c.get k2 := by
  have hbeq : (k == k2) = false := by
    simp_all [BEq.beq]
    intro h2
    exact absurd h2.symm h
  simp only [get, add, List.find?, hbeq]
  congr 1
  induction c with
  | nil => rfl
  | cons e rest ih =>
    by_cases he : e.1 = k
    · have h1 : (e.1 != k) = false := by simp [he]
      have h2 : (e.1 == k2) = false := by
        simp only [beq_eq_false_iff_ne, ne_eq, he]
        intro h3
        exact h (h3.symm)
      simp [List.filter, List.find?, h1, h2, ih]
    · have h1 : (e.1 != k) = true := by simp [he]
      simp only [List.filter, h1, List.find?]
      cases hx : (e.1 == k2) <;> simp [hx, ih]

end Cache

/-- Model of the external `golang.org/x/time/rate.Limiter`
(spec section 4.2 "TokenBucketLimiter"): token count, refill rate
(tokens/second), burst capacity, and the instant of the last refill. -/
structure Limiter where
  rate : ℚ
  burst : ℚ
  tokens : ℚ
  last : ℚ
deriving DecidableEq, Repr

namespace Limiter

/-- `rate.NewLimiter(r, b)` as observed from time `t0` on: a fresh limiter
holds its full burst. -/
def new (r b t0 : ℚ) : Limiter := ⟨r, b, b, t0⟩

/-- `Allow()` at instant `t`: lazily refill from elapsed time (capped at the
burst), then consume one token if at least one is available. -/
def allowAt (l : Limiter) (t : ℚ) : Bool × Limiter :=
  let refilled := min l.burst (l.tokens + (t - l.last) * l.rate)
  if 1 ≤ refilled then (true, ⟨l.rate, l.burst, refilled - 1, t⟩)
  else (false, ⟨l.rate, l.burst, refilled, t⟩)

end Limiter

/-- The event shape the filters consume (`nostr.Event` fields used by the
policy package). -/
structure Event where
  kind : Int
  pubKey : String
  content : String
  tags : List (List String)
deriving DecidableEq, Repr

/-- The request metadata side channel: the `"remote_ip"` entry of
`meta map[string]any`.  `none` models an absent entry or one whose dynamic
type is not `string` (the Go type assertion fails). -/
structure ReqMeta where
  remoteIP : Option String
deriving DecidableEq, Repr

/-! ## policy/repost_abuse_filter.go -/

/-- `config.RepostAbuseFilterConfig` (fields used by the filter).
Go field `MaxRatio` is called `ratioMax` here. -/
structure RepostAbuseFilterConfig where
  enabled : Bool
  minEvents : Int
  ratioMax : ℚ
  resetDuration : ℚ
  countRejectAsActivity : Bool
  requireNIP21InQuote : Bool
deriving DecidableEq, Repr

/-- `UserActivityStats`: per-pubkey posting behaviour. -/
structure UserActivityStats where
  originalPosts : Int
  reposts : Int
  lastEventTime : ℚ
deriving DecidableEq, Repr

/-- Zero value of `UserActivityStats` (Go `&UserActivityStats{}`). -/
def UserActivityStats.zero : UserActivityStats := ⟨0, 0, 0⟩

/-- `RepostAbuseFilter`: the config plus the per-pubkey stats cache. -/
structure RepostAbuseFilter where
  cfg : RepostAbuseFilterConfig
  stats : Cache UserActivityStats
deriving DecidableEq, Repr

/-- `NewRepostAbuseFilter`: clamps `MaxRatio` into `[0, 1]` and starts with an
empty stats cache. -/
def NewRepostAbuseFilter (cfg : RepostAbuseFilterConfig) : RepostAbuseFilter :=
  let m := if cfg.ratioMax < 0 then 0 else if 1 < cfg.ratioMax then 1 else cfg.ratioMax
  { cfg := { cfg with ratioMax := m }, stats := [] }

/-- ASCII model of Go `strings.EqualFold` (the tag names compared here are
ASCII). -/
def eqFold (a b : String) : Bool :=
  a.data.map Char.toLower == b.data.map Char.toLower

/-- `hasTag`: some tag is non-empty and its name compares case-insensitively
equal to `name`. -/
def hasTag (ev : Event) (name : String) : Bool :=
  ev.tags.any fun t =>
    match t with
    | [] => false
    | h :: _ => eqFold h name

/-- Word characters of Go `regexp`'s ASCII word boundary `\b`:
`[0-9A-Za-z_]`. -/
def isWordChar (c : Char) : Bool := c.isAlphanum || c == '_'

/-- The character class `[0-9a-z]` of the NIP-21 pattern. -/
def isBechChar (c : Char) : Bool := c.isDigit || c.isLower

/-- The three alternatives of the pattern `(naddr1|nevent1|note1)`. -/
def nip21Heads : List (List Char) :=
  [String.data "naddr1", String.data "nevent1", String.data "note1"]

/-- A match of `(naddr1|nevent1|note1)[0-9a-z]+\b` starting exactly at the
head of `cs` (the `\b` before the head is checked by the caller): one of the
alternatives, then a non-empty maximal `[0-9a-z]` run, then a word boundary. -/
def nip21MatchAt (cs : List Char) : Bool :=
  nip21Heads.any fun p =>
    if cs.take p.length == p then
      let rest := cs.drop p.length
      let run := rest.takeWhile isBechChar
      let post := rest.dropWhile isBechChar
      decide (1 ≤ run.length) &&
        (match post with
         | [] => true
         | c :: _ => !isWordChar c)
    else false

/-- Scan of the whole text: a match may start at any position whose previous
character (if any) is not a word character. -/
def nip21Scan : Option Char → List Char → Bool
  | _, [] => false
  | prev, c :: rest =>
    let boundaryOK := match prev with
      | none => true
      | some p => !isWordChar p
    (boundaryOK && nip21MatchAt (c :: rest)) || nip21Scan (some c) rest

/-- `contentHasNIP21Ref`: model of
`regexp.MustCompile(backslash-b (naddr1|nevent1|note1)[0-9a-z]+ backslash-b).MatchString`. -/
def contentHasNIP21Ref (s : String) : Bool := nip21Scan none s.data

/-- `isRepostNIP18`: kind 6 and kind 16 are reposts; a kind-1 note with a `q`
tag is a quote repost, optionally requiring a NIP-21 reference in the content
when `RequireNIP21InQuote` is set. -/
def isRepostNIP18 (cfg : RepostAbuseFilterConfig) (ev : Event) : Bool :=
  if ev.kind == 6 then true
  else if ev.kind == 16 then true
  else if ev.kind == 1 then
    hasTag ev "q" && (!cfg.requireNIP21InQuote || contentHasNIP21Ref ev.content)
  else false

/-- The inactivity decay applied on each read: counters are treated as zero
once more than `ResetDuration` has elapsed since the last activity (only when
a positive reset duration is configured and a last activity is recorded). -/
def decayStats (cfg : RepostAbuseFilterConfig) (now : ℚ) (s : UserActivityStats) :
    UserActivityStats :=
  if cfg.resetDuration > 0 && !(s.lastEventTime == 0) &&
      decide (cfg.resetDuration < now - s.lastEventTime) then
    { s with originalPosts := 0, reposts := 0 }
  else s

/-- The decayed snapshot both locked sections of `Match` read (`statsCopy`
resp. `fresh`; within one sequential call the two reads agree). -/
def RepostAbuseFilter.snapshot (f : RepostAbuseFilter) (now : ℚ) (ev : Event) :
    UserActivityStats :=
  decayStats f.cfg now ((f.stats.get ev.pubKey).getD UserActivityStats.zero)

/-- The decision of `Match` for a tracked event: reject iff the event is a
repost, `originals + reposts >= MinEvents`, and the predicted ratio
`(reposts+1)/(total+1)` is at least the configured maximum (the ratio is only
computed when `total+1 > 0`, as in the source). -/
def RepostAbuseFilter.rejects (f : RepostAbuseFilter) (now : ℚ) (ev : Event) : Bool :=
  isRepostNIP18 f.cfg ev &&
    (let s := f.snapshot now ev
     let total := s.originalPosts + s.reposts
     let curFrac : ℚ :=
       if 0 < total + 1 then ((s.reposts + 1 : Int) : ℚ) / ((total + 1 : Int) : ℚ)
       else 0
     decide (f.cfg.minEvents ≤ total) && decide (f.cfg.ratioMax ≤ curFrac))

/-- The stats record `Match` writes back for a tracked event (second locked
section): refresh the timestamp unless a rejection happens without
`CountRejectAsActivity`; on acceptance bump the matching counter. -/
def RepostAbuseFilter.updatedStats (f : RepostAbuseFilter) (now : ℚ) (ev : Event) :
    UserActivityStats :=
  let fresh0 := f.snapshot now ev
  let fresh1 :=
    if !f.rejects now ev || f.cfg.countRejectAsActivity then
      { fresh0 with lastEventTime := now }
    else fresh0
  if !f.rejects now ev then
    if isRepostNIP18 f.cfg ev then { fresh1 with reposts := fresh1.reposts + 1 }
    else { fresh1 with originalPosts := fresh1.originalPosts + 1 }
  else fresh1

/-- `RepostAbuseFilter.Match` at instant `now`: decide from a decayed snapshot,
then apply the side effects from a fresh read.  Returns the verdict and the
updated filter. -/
def RepostAbuseFilter.Match (f : RepostAbuseFilter) (now : ℚ) (ev : Event) :
    Bool × RepostAbuseFilter :=
  if !f.cfg.enabled then (true, f)
  else if !(ev.kind == 1 || ev.kind == 6 || ev.kind == 16) then (true, f)
  else
    (!f.rejects now ev, { f with stats := f.stats.add ev.pubKey (f.updatedStats now ev) })

/-! ## Claims about the repost-abuse filter -/

/-- C1: for an enabled filter and a tracked event classified as a repost
(whose decayed counters are non-negative, as every reachable state's are),
`Match` rejects it iff `originals + reposts >= MinEvents` and the predicted
ratio `(reposts+1)/(originals+reposts+1)` is at least the configured maximum;
moreover the constructor clamps `MaxRatio` into `[0, 1]`. -/
theorem repostAbuse_match_rejects_iff_ratio (f : RepostAbuseFilter) (now : ℚ) (ev : Event)
    (hen : f.cfg.enabled = true)
    (hkind : ev.kind = 1 ∨ ev.kind = 6 ∨ ev.kind = 16)
    (hrep : isRepostNIP18 f.cfg ev = true)
    (ho : 0 ≤ (f.snapshot now ev).originalPosts)
    (hr : 0 ≤ (f.snapshot now ev).reposts) :
    ((f.Match now ev).1 = false ↔
      (f.cfg.minEvents ≤ (f.snapshot now ev).originalPosts + (f.snapshot now ev).reposts ∧
       f.cfg.ratioMax ≤
         (((f.snapshot now ev).reposts + 1 : Int) : ℚ) /
           (((f.snapshot now ev).originalPosts + (f.snapshot now ev).reposts + 1 : Int) : ℚ))) ∧
    (∀ cfg : RepostAbuseFilterConfig,
      0 ≤ (NewRepostAbuseFilter cfg).cfg.ratioMax ∧ (NewRepostAbuseFilter cfg).cfg.ratioMax ≤ 1) := by
  constructor
  · have hpos : (0 : Int) <
        (f.snapshot now ev).originalPosts + (f.snapshot now ev).reposts + 1 := by omega
    rcases hkind with h | h | h <;>
      · simp [RepostAbuseFilter.Match, RepostAbuseFilter.rejects, h, hen, hrep, and_comm]
        intro _
        rw [if_pos hpos]
  · intro cfg
    simp only [NewRepostAbuseFilter]
    split
    next => constructor <;> norm_num
    next h1 =>
      split
      next => constructor <;> norm_num
      next h2 => exact ⟨not_lt.mp h1, not_lt.mp h2⟩

/-- Concrete config for the C1 witness: minEvents 5, maxRatio 1/2. -/
def repostCfgW : RepostAbuseFilterConfig :=
  { enabled := true, minEvents := 5, ratioMax := 1/2, resetDuration := 0,
    countRejectAsActivity := false, requireNIP21InQuote := false }

/-- Concrete filter state for the C1 witness: 4 originals, 0 reposts. -/
def repostFW : RepostAbuseFilter :=
  { cfg := repostCfgW, stats := [("alice", ⟨4, 0, 1⟩)] }

/-- A kind-6 repost event from that identity. -/
def repostEvW : Event := { kind := 6, pubKey := "alice", content := "", tags := [] }

/-- Witness for C1: with minEvents 5 and maxRatio 1/2, an identity with 4
originals and 0 reposts has its first repost allowed (total 4 < 5). -/
theorem repostAbuse_match_rejects_iff_ratio_witness :
    repostFW.cfg.enabled = true ∧ isRepostNIP18 repostFW.cfg repostEvW = true ∧
    (repostFW.Match 2 repostEvW).1 = true := by
  have h := repostAbuse_match_rejects_iff_ratio repostFW 2 repostEvW rfl
    (Or.inr (Or.inl rfl)) (by decide) (by decide) (by decide)
  refine ⟨rfl, by decide, ?_⟩
  by_cases hb : (repostFW.Match 2 repostEvW).1 = false
  · exact absurd (h.1.mp hb).1 (by decide)
  · simpa using hb

/-- C6: for an enabled filter and a tracked event: on rejection the stored
counters are exactly the decayed previous counters (no increment) and the
timestamp is refreshed iff `CountRejectAsActivity` is set; on acceptance
exactly one counter is incremented (the repost counter for a repost, the
originals counter otherwise) and the timestamp is always refreshed. -/
theorem repostAbuse_match_side_effects (f : RepostAbuseFilter) (now : ℚ) (ev : Event)
    (hen : f.cfg.enabled = true)
    (hkind : ev.kind = 1 ∨ ev.kind = 6 ∨ ev.kind = 16) :
    ((f.Match now ev).1 = false →
      ((f.Match now ev).2).stats.get ev.pubKey =
        some { originalPosts := (f.snapshot now ev).originalPosts,
               reposts := (f.snapshot now ev).reposts,
               lastEventTime :=
                 if f.cfg.countRejectAsActivity then now
                 else (f.snapshot now ev).lastEventTime }) ∧
    ((f.Match now ev).1 = true → isRepostNIP18 f.cfg ev = true →
      ((f.Match now ev).2).stats.get ev.pubKey =
        some { originalPosts := (f.snapshot now ev).originalPosts,
               reposts := (f.snapshot now ev).reposts + 1,
               lastEventTime := now }) ∧
    ((f.Match now ev).1 = true → isRepostNIP18 f.cfg ev = false →
      ((f.Match now ev).2).stats.get ev.pubKey =
        some { originalPosts := (f.snapshot now ev).originalPosts + 1,
               reposts := (f.snapshot now ev).reposts,
               lastEventTime := now }) := by
  have hmatch : f.Match now ev =
      (!f.rejects now ev, { f with stats := f.stats.add ev.pubKey (f.updatedStats now ev) }) := by
    rcases hkind with h | h | h <;> simp [RepostAbuseFilter.Match, h, hen]
  rw [hmatch]
  simp only [Cache.get_add_self]
  refine ⟨?_, ?_, ?_⟩
  · intro hrej
    have hr : f.rejects now ev = true := by
      by_cases hb : f.rejects now ev = true
      · exact hb
      · simp [hb] at hrej
    simp [RepostAbuseFilter.updatedStats, hr]
    by_cases hc : f.cfg.countRejectAsActivity = true <;> simp [hc]
  · intro hall hrep
    have hr : f.rejects now ev = false := by
      by_cases hb : f.rejects now ev = false
      · exact hb
      · simp [eq_true_of_ne_false hb] at hall
    simp [RepostAbuseFilter.updatedStats, hr, hrep]
  · intro hall hrep
    have hr : f.rejects now ev = false := by
      by_cases hb : f.rejects now ev = false
      · exact hb
      · simp [eq_true_of_ne_false hb] at hall
    simp [RepostAbuseFilter.updatedStats, hr, hrep]

/-- Witness for C6: a rejected repost (4 originals, 4 reposts, predicted 5/9 at
least 1/2) leaves the counters unincremented, with the timestamp untouched
since `CountRejectAsActivity` is off. -/
theorem repostAbuse_match_side_effects_witness :
    repostFW.cfg.enabled = true ∧
    (({ repostFW with stats := [("alice", ⟨4, 4, 1⟩)] } : RepostAbuseFilter).Match 2 repostEvW).1
        = false ∧
    ((({ repostFW with stats := [("alice", ⟨4, 4, 1⟩)] } : RepostAbuseFilter).Match 2
        repostEvW).2).stats.get "alice" = some ⟨4, 4, 1⟩ := by
  have hrej : (({ repostFW with stats := [("alice", ⟨4, 4, 1⟩)] } : RepostAbuseFilter).Match 2
      repostEvW).1 = false := by
    simp [RepostAbuseFilter.Match, RepostAbuseFilter.rejects, RepostAbuseFilter.snapshot,
      repostFW, repostCfgW, repostEvW, Cache.get, decayStats, isRepostNIP18, List.find?]
    norm_num
  have h := repostAbuse_match_side_effects
    ({ repostFW with stats := [("alice", ⟨4, 4, 1⟩)] }) 2 repostEvW rfl (Or.inr (Or.inl rfl))
  refine ⟨rfl, hrej, ?_⟩
  have h2 := h.1 hrej
  rw [show repostEvW.pubKey = "alice" from rfl] at h2
  rw [h2]
  decide

/-- C9: for an enabled filter, a kind-1 event carrying a `q` tag whose content
has no NIP-21 reference is, under `RequireNIP21InQuote`, classified as an
original: it is allowed (never ratio-checked) and the stored record increments
`OriginalPosts`, not `Reposts`. -/
theorem repostAbuse_quote_without_nip21_is_original (f : RepostAbuseFilter) (now : ℚ) (ev : Event)
    (hen : f.cfg.enabled = true)
    (hk : ev.kind = 1)
    (hq : hasTag ev "q" = true)
    (hreq : f.cfg.requireNIP21InQuote = true)
    (hnip : contentHasNIP21Ref ev.content = false) :
    isRepostNIP18 f.cfg ev = false ∧
    (f.Match now ev).1 = true ∧
    ((f.Match now ev).2).stats.get ev.pubKey =
      some { originalPosts := (f.snapshot now ev).originalPosts + 1,
             reposts := (f.snapshot now ev).reposts,
             lastEventTime := now } := by
  have hrep : isRepostNIP18 f.cfg ev = false := by
    simp [isRepostNIP18, hk, hq, hreq, hnip]
  have hrej : f.rejects now ev = false := by
    simp [RepostAbuseFilter.rejects, hrep]
  have hmatch : f.Match now ev =
      (!f.rejects now ev, { f with stats := f.stats.add ev.pubKey (f.updatedStats now ev) }) := by
    simp [RepostAbuseFilter.Match, hk, hen]
  refine ⟨hrep, ?_, ?_⟩
  · rw [hmatch, hrej]
    rfl
  · rw [hmatch]
    simp only [Cache.get_add_self]
    simp [RepostAbuseFilter.updatedStats, hrej, hrep]

/-- Witness for C9: a kind-1 quote with a `q` tag and no NIP-21 reference in
its content is allowed and counted as an original post. -/
theorem repostAbuse_quote_without_nip21_is_original_witness :
    (let cfg : RepostAbuseFilterConfig :=
      { enabled := true, minEvents := 0, ratioMax := 0, resetDuration := 0,
        countRejectAsActivity := false, requireNIP21InQuote := true }
     let f : RepostAbuseFilter := { cfg := cfg, stats := [] }
     let ev : Event :=
      { kind := 1, pubKey := "bob", content := "quoting something", tags := [["q", "abcd"]] }
     isRepostNIP18 f.cfg ev = false ∧ (f.Match 3 ev).1 = true ∧
       ((f.Match 3 ev).2).stats.get ev.pubKey = some ⟨1, 0, 3⟩) := by
  have h := repostAbuse_quote_without_nip21_is_original
    { cfg := { enabled := true, minEvents := 0, ratioMax := 0, resetDuration := 0,
               countRejectAsActivity := false, requireNIP21InQuote := true }, stats := [] }
    3
    { kind := 1, pubKey := "bob", content := "quoting something", tags := [["q", "abcd"]] }
    rfl rfl (by decide) rfl (by decide)
  refine ⟨h.1, h.2.1, ?_⟩
  rw [h.2.2]
  decide

/-! ## policy/rate_limiter_filter.go -/

/-- One entry of `config.RateLimiterConfig.Rules`. -/
structure RateLimitRule where
  kinds : List Int
  rate : ℚ
  burst : ℚ
  description : String
deriving DecidableEq, Repr

/-- The identity dimension `config.By` (`RateByIP`, `RateByPubKey`,
`RateByBoth`). -/
inductive RateBy
  | byIP
  | byPubKey
  | byBoth
deriving DecidableEq, Repr

/-- `config.RateLimiterConfig` (fields used by the filter; cache size and TTL
govern eviction only and are not part of this model). -/
structure RateLimiterConfig where
  enabled : Bool
  defaultRate : ℚ
  defaultBurst : ℚ
  dim : RateBy
  rules : List RateLimitRule
deriving DecidableEq, Repr

/-- `RateLimiterFilter`: resolved config plus the shared limiter cache. -/
structure RateLimiterFilter where
  cfg : RateLimiterConfig
  limiters : Cache Limiter
deriving DecidableEq, Repr

/-- The `kindToRule` map built by `NewRateLimiterFilter`: for each kind the
last rule listing it wins (later map writes overwrite earlier ones), paired
with its index (the rule id is `"rule-" ++ index`). -/
def kindToRule (rules : List RateLimitRule) (kind : Int) : Option (Nat × RateLimitRule) :=
  rules.enum.foldl
    (fun acc p => if p.2.kinds.contains kind then some p else acc) none

/-- Resolved rate for a kind: the matching rule's rate, else the default. -/
def RateLimiterFilter.resolvedRate (f : RateLimiterFilter) (kind : Int) : ℚ :=
  match kindToRule f.cfg.rules kind with
  | some p => p.2.rate
  | none => f.cfg.defaultRate

/-- Resolved burst for a kind. -/
def RateLimiterFilter.resolvedBurst (f : RateLimiterFilter) (kind : Int) : ℚ :=
  match kindToRule f.cfg.rules kind with
  | some p => p.2.burst
  | none => f.cfg.defaultBurst

/-- Resolved rule id for a kind (`"rule-" ++ i` or `"default"`). -/
def RateLimiterFilter.resolvedId (f : RateLimiterFilter) (kind : Int) : String :=
  match kindToRule f.cfg.rules kind with
  | some p => "rule-" ++ toString p.1
  | none => "default"

/-- Resolved description for a kind. -/
def RateLimiterFilter.resolvedDesc (f : RateLimiterFilter) (kind : Int) : String :=
  match kindToRule f.cfg.rules kind with
  | some p => p.2.description
  | none => "default"

/-- The identity keys `Match` checks, in their fixed order: for `both` the
address key comes first, then the public-key key; an empty remote address or
public key contributes no key. -/
def rateUserKeys (dim : RateBy) (remoteIP pk : String) : List String :=
  match dim with
  | .byIP => if remoteIP != "" then ["ip:" ++ remoteIP] else []
  | .byPubKey => if pk != "" then ["pk:" ++ pk] else []
  | .byBoth =>
    (if remoteIP != "" then ["ip:" ++ remoteIP] else []) ++
      (if pk != "" then ["pk:" ++ pk] else [])

/-- The per-key loop of `Match`: for each key look up or create the limiter
under the composite key `ruleId ++ ":" ++ key`, call `allow`, and stop at the
first denial (later keys are not charged).  Returns the verdict with the
rejection reason and the updated limiter cache. -/
def rateCheckKeys (now r b : ℚ) (ruleId desc : String) :
    List String → Cache Limiter → (Bool × Option String) × Cache Limiter
  | [], cache => ((true, none), cache)
  | k :: ks, cache =>
    let cacheKey := ruleId ++ ":" ++ k
    let lim := (cache.get cacheKey).getD (Limiter.new r b now)
    let out := lim.allowAt now
    let cache2 := cache.add cacheKey out.2
    if out.1 then rateCheckKeys now r b ruleId desc ks cache2
    else ((false, some ("blocked: rate limit exceeded for " ++ desc)), cache2)

/-- `RateLimiterFilter.Match` at instant `now`. -/
def RateLimiterFilter.Match (f : RateLimiterFilter) (now : ℚ) (ev : Event) (meta : ReqMeta) :
    (Bool × Option String) × RateLimiterFilter :=
  if !f.cfg.enabled then ((true, none), f)
  else if f.resolvedRate ev.kind ≤ 0 then ((true, none), f)
  else
    let remoteIP := meta.remoteIP.getD ""
    let keys := rateUserKeys f.cfg.dim remoteIP ev.pubKey
    let out := rateCheckKeys now (f.resolvedRate ev.kind) (f.resolvedBurst ev.kind)
      (f.resolvedId ev.kind) (f.resolvedDesc ev.kind) keys f.limiters
    (out.1, { f with limiters := out.2 })

/-! ## Claims about the rate-limiter filter -/

/-- Composite cache keys for the address and public-key dimensions are always
distinct (they differ at the dimension marker). -/
theorem ipKey_ne_pkKey (ruleId ip pk : String) :
    ruleId ++ ":" ++ ("ip:" ++ ip) ≠ ruleId ++ ":" ++ ("pk:" ++ pk) := by
  intro h
  have h2 := congrArg String.data h
  simp [String.data_append] at h2

/-- The composite cache key (`ruleId ++ ":" ++ dimensionKey`) of the address
dimension for an event served from address `ip`. -/
def RateLimiterFilter.ipCacheKey (f : RateLimiterFilter) (ev : Event) (ip : String) : String :=
  f.resolvedId ev.kind ++ ":" ++ ("ip:" ++ ip)

/-- The composite cache key of the public-key dimension for an event. -/
def RateLimiterFilter.pkCacheKey (f : RateLimiterFilter) (ev : Event) : String :=
  f.resolvedId ev.kind ++ ":" ++ ("pk:" ++ ev.pubKey)

/-- The limiter consulted for one dimension key: the cached limiter for that
composite key, or a freshly created one with the resolved rate and burst. -/
def RateLimiterFilter.limiterFor (f : RateLimiterFilter) (now : ℚ) (ev : Event)
    (cache : Cache Limiter) (key : String) : Limiter :=
  (cache.get key).getD (Limiter.new (f.resolvedRate ev.kind) (f.resolvedBurst ev.kind) now)

/-- Unfolding `rateCheckKeys` on the empty key list. -/
theorem rateCheckKeys_nil (now r b : ℚ) (ruleId desc : String) (cache : Cache Limiter) :
    rateCheckKeys now r b ruleId desc [] cache = ((true, none), cache) := rfl

/-- Unfolding `rateCheckKeys` when the first key's limiter allows: the loop
continues on the remaining keys with the charged entry written back. -/
theorem rateCheckKeys_cons_allow (now r b : ℚ) (ruleId desc k : String) (ks : List String)
    (cache : Cache Limiter)
    (h : (((cache.get (ruleId ++ ":" ++ k)).getD (Limiter.new r b now)).allowAt now).1 = true) :
    rateCheckKeys now r b ruleId desc (k :: ks) cache =
      rateCheckKeys now r b ruleId desc ks
        (cache.add (ruleId ++ ":" ++ k)
          (((cache.get (ruleId ++ ":" ++ k)).getD (Limiter.new r b now)).allowAt now).2) := by
  simp only [rateCheckKeys, h]
  simp

/-- Unfolding `rateCheckKeys` when the first key's limiter denies: the loop
stops with the rule's description in the reason and no later key touched. -/
theorem rateCheckKeys_cons_deny (now r b : ℚ) (ruleId desc k : String) (ks : List String)
    (cache : Cache Limiter)
    (h : (((cache.get (ruleId ++ ":" ++ k)).getD (Limiter.new r b now)).allowAt now).1 = false) :
    rateCheckKeys now r b ruleId desc (k :: ks) cache =
      ((false, some ("blocked: rate limit exceeded for " ++ desc)),
       cache.add (ruleId ++ ":" ++ k)
         (((cache.get (ruleId ++ ":" ++ k)).getD (Limiter.new r b now)).allowAt now).2) := by
  simp only [rateCheckKeys, h]
  simp

/-- C3: with dimension `both` and both identity keys available, the address
key is evaluated first: an address-limiter denial determines the whole result
(rejection naming the resolved rule's description, only the address entry of
the cache updated under its composite key), and in that case the public-key
composite entry is untouched (not charged); when the address limiter allows,
the public-key limiter is then evaluated on the cache already holding the
charged address entry, and its verdict decides. -/
theorem rateLimiter_both_order_and_short_circuit
    (f : RateLimiterFilter) (now : ℚ) (ev : Event) (meta : ReqMeta) (ip : String)
    (hen : f.cfg.enabled = true)
    (hdim : f.cfg.dim = RateBy.byBoth)
    (hip : meta.remoteIP = some ip)
    (hipne : ip ≠ "")
    (hpk : ev.pubKey ≠ "")
    (hr : 0 < f.resolvedRate ev.kind) :
    (((f.limiterFor now ev f.limiters (f.ipCacheKey ev ip)).allowAt now).1 = false →
      f.Match now ev meta =
        ((false, some ("blocked: rate limit exceeded for " ++ f.resolvedDesc ev.kind)),
          { f with limiters :=
                     f.limiters.add (f.ipCacheKey ev ip)
                       ((f.limiterFor now ev f.limiters (f.ipCacheKey ev ip)).allowAt now).2 }) ∧
      ((f.Match now ev meta).2).limiters.get (f.pkCacheKey ev) =
        f.limiters.get (f.pkCacheKey ev)) ∧
    (((f.limiterFor now ev f.limiters (f.ipCacheKey ev ip)).allowAt now).1 = true →
      f.Match now ev meta =
        (let c2 := f.limiters.add (f.ipCacheKey ev ip)
          ((f.limiterFor now ev f.limiters (f.ipCacheKey ev ip)).allowAt now).2
         let outPK := (f.limiterFor now ev c2 (f.pkCacheKey ev)).allowAt now
         ((outPK.1,
            if outPK.1 then none
            else some ("blocked: rate limit exceeded for " ++ f.resolvedDesc ev.kind)),
          { f with limiters := c2.add (f.pkCacheKey ev) outPK.2 }))) := by
  have hkeys : rateUserKeys f.cfg.dim (meta.remoteIP.getD "") ev.pubKey =
      ["ip:" ++ ip, "pk:" ++ ev.pubKey] := by
    simp [rateUserKeys, hdim, hip, hipne, hpk]
  have hle : ¬(f.resolvedRate ev.kind ≤ 0) := not_le.mpr hr
  have hmatch : f.Match now ev meta =
      ((rateCheckKeys now (f.resolvedRate ev.kind) (f.resolvedBurst ev.kind)
          (f.resolvedId ev.kind) (f.resolvedDesc ev.kind) ["ip:" ++ ip, "pk:" ++ ev.pubKey]
          f.limiters).1,
       { f with limiters :=
                  (rateCheckKeys now (f.resolvedRate ev.kind) (f.resolvedBurst ev.kind)
                    (f.resolvedId ev.kind) (f.resolvedDesc ev.kind)
                    ["ip:" ++ ip, "pk:" ++ ev.pubKey] f.limiters).2 }) := by
    simp only [RateLimiterFilter.Match, hen, hle, hkeys]
    simp
  constructor
  · intro hdeny
    simp only [RateLimiterFilter.limiterFor, RateLimiterFilter.ipCacheKey] at hdeny
    have hres : f.Match now ev meta =
        ((false, some ("blocked: rate limit exceeded for " ++ f.resolvedDesc ev.kind)),
          { f with limiters :=
                     f.limiters.add (f.ipCacheKey ev ip)
                       ((f.limiterFor now ev f.limiters (f.ipCacheKey ev ip)).allowAt now).2 }) := by
      rw [hmatch, rateCheckKeys_cons_deny _ _ _ _ _ _ _ _ hdeny]
      rfl
    refine ⟨hres, ?_⟩
    rw [hres]
    exact Cache.get_add_ne _ _ _ _
      (fun h => ipKey_ne_pkKey (f.resolvedId ev.kind) ip ev.pubKey h.symm)
  · intro hallow
    simp only [RateLimiterFilter.limiterFor, RateLimiterFilter.ipCacheKey,
      RateLimiterFilter.pkCacheKey] at hallow ⊢
    rw [hmatch, rateCheckKeys_cons_allow _ _ _ _ _ _ _ _ hallow]
    by_cases hpkb : ((((f.limiters.add (f.resolvedId ev.kind ++ ":" ++ ("ip:" ++ ip))
        (((f.limiters.get (f.resolvedId ev.kind ++ ":" ++ ("ip:" ++ ip))).getD
            (Limiter.new (f.resolvedRate ev.kind) (f.resolvedBurst ev.kind) now)).allowAt
          now).2).get (f.resolvedId ev.kind ++ ":" ++ ("pk:" ++ ev.pubKey))).getD
        (Limiter.new (f.resolvedRate ev.kind) (f.resolvedBurst ev.kind) now)).allowAt now).1 = true
    · rw [rateCheckKeys_cons_allow _ _ _ _ _ _ _ _ hpkb, rateCheckKeys_nil]
      simp [hpkb]
    · rw [rateCheckKeys_cons_deny _ _ _ _ _ _ _ _ (Bool.eq_false_iff.mpr hpkb)]
      simp [Bool.eq_false_iff.mpr hpkb]

/-- Concrete config for the rate-limiter witnesses: enabled, dimension `both`,
no explicit rules (default rate 1, burst 1). -/
def rateCfgW : RateLimiterConfig :=
  { enabled := true, defaultRate := 1, defaultBurst := 1, dim := RateBy.byBoth, rules := [] }

/-- Fresh rate-limiter filter for the witnesses. -/
def rateFW : RateLimiterFilter := { cfg := rateCfgW, limiters := [] }

/-- A kind-1 event from `alice` for the witnesses. -/
def rateEvW : Event := { kind := 1, pubKey := "alice", content := "", tags := [] }

/-- Request metadata carrying remote address `1.2.3.4`. -/
def rateMetaW : ReqMeta := { remoteIP := some "1.2.3.4" }

/-- Witness for C3: on a fresh filter both limiters are created under their
composite keys, the address key is checked first and allows, then the
public-key limiter allows, and the event passes. -/
theorem rateLimiter_both_order_and_short_circuit_witness :
    rateFW.cfg.enabled = true ∧ rateFW.cfg.dim = RateBy.byBoth ∧
      0 < rateFW.resolvedRate rateEvW.kind ∧
      (rateFW.Match 5 rateEvW rateMetaW).1 = (true, none) := by
  have hallow : ((rateFW.limiterFor 5 rateEvW rateFW.limiters
      (rateFW.ipCacheKey rateEvW "1.2.3.4")).allowAt 5).1 = true := by
    simp [RateLimiterFilter.limiterFor, RateLimiterFilter.ipCacheKey, Cache.get,
      Limiter.new, Limiter.allowAt, rateFW, rateCfgW, rateEvW,
      RateLimiterFilter.resolvedRate, RateLimiterFilter.resolvedBurst, kindToRule]
  have hrate : 0 < rateFW.resolvedRate rateEvW.kind := by
    simp [RateLimiterFilter.resolvedRate, kindToRule, rateFW, rateCfgW, rateEvW]
  have h := (rateLimiter_both_order_and_short_circuit rateFW 5 rateEvW rateMetaW "1.2.3.4"
    rfl rfl rfl (by decide) (by decide) hrate).2 hallow
  refine ⟨rfl, rfl, hrate, ?_⟩
  rw [h]
  simp [RateLimiterFilter.limiterFor, RateLimiterFilter.ipCacheKey,
    RateLimiterFilter.pkCacheKey, Cache.get, Cache.add, Limiter.new, Limiter.allowAt,
    rateFW, rateCfgW, rateEvW, RateLimiterFilter.resolvedRate,
    RateLimiterFilter.resolvedBurst, RateLimiterFilter.resolvedId,
    RateLimiterFilter.resolvedDesc, kindToRule]

/-- C8: with the filter enabled and a positive resolved rate, a dimension that
yields no identity keys (absent/empty remote address for the address
dimension, empty public key for the pubkey dimension) lets the event through
with no limiter consulted or created: the filter state is returned
unchanged. -/
theorem rateLimiter_no_keys_allows
    (f : RateLimiterFilter) (now : ℚ) (ev : Event) (meta : ReqMeta)
    (hen : f.cfg.enabled = true)
    (hr : 0 < f.resolvedRate ev.kind) :
    (f.cfg.dim = RateBy.byIP → meta.remoteIP.getD "" = "" →
      f.Match now ev meta = ((true, none), f)) ∧
    (f.cfg.dim = RateBy.byPubKey → ev.pubKey = "" →
      f.Match now ev meta = ((true, none), f)) ∧
    (f.cfg.dim = RateBy.byBoth → meta.remoteIP.getD "" = "" → ev.pubKey = "" →
      f.Match now ev meta = ((true, none), f)) := by
  have hle : ¬(f.resolvedRate ev.kind ≤ 0) := not_le.mpr hr
  refine ⟨?_, ?_, ?_⟩
  · intro hdim h1
    simp [RateLimiterFilter.Match, hen, hle, rateUserKeys, hdim, h1, rateCheckKeys]
  · intro hdim h1
    simp [RateLimiterFilter.Match, hen, hle, rateUserKeys, hdim, h1, rateCheckKeys]
  · intro hdim h1 h2
    simp [RateLimiterFilter.Match, hen, hle, rateUserKeys, hdim, h1, h2, rateCheckKeys]

/-- Witness for C8: enabled filter, dimension `both`, no remote address and an
anonymous event: allowed with the filter unchanged. -/
theorem rateLimiter_no_keys_allows_witness :
    ({ rateFW with cfg := { rateCfgW with dim := RateBy.byBoth } } : RateLimiterFilter).cfg.enabled
        = true ∧
    (({ rateFW with cfg := { rateCfgW with dim := RateBy.byBoth } } : RateLimiterFilter).Match 7
        { kind := 1, pubKey := "", content := "", tags := [] } { remoteIP := none }) =
      ((true, none), { rateFW with cfg := { rateCfgW with dim := RateBy.byBoth } }) := by
  have hrate : 0 < ({ rateFW with cfg := { rateCfgW with dim := RateBy.byBoth } } :
      RateLimiterFilter).resolvedRate (1 : Int) := by
    simp [RateLimiterFilter.resolvedRate, kindToRule, rateFW, rateCfgW]
  have h := (rateLimiter_no_keys_allows
    { rateFW with cfg := { rateCfgW with dim := RateBy.byBoth } } 7
    { kind := 1, pubKey := "", content := "", tags := [] } { remoteIP := none }
    rfl hrate).2.2 rfl rfl rfl
  exact ⟨rfl, h⟩

/-! ## IP address parsing, masking and rendering (Go `net`, as consumed by
policy/emergency_filter.go).  Addresses are byte lists (values in `[0,255]`);
the Go `nil` IP/mask is `[]`. -/

/-- One dotted-decimal IPv4 field: 1-3 digits, no leading zero, value at most
255 (Go rejects leading zeros since 1.17). -/
def parseIPv4Field (s : List Char) : Option (Nat × List Char) :=
  let ds := s.takeWhile Char.isDigit
  let rest := s.dropWhile Char.isDigit
  if ds.isEmpty then none
  else if decide (1 < ds.length) && (ds.headD '0' == '0') then none
  else
    let n := ds.foldl (fun a c => a * 10 + (c.toNat - 48)) 0
    if 255 < n then none else some (n, rest)

/-- Consume the `.` separating two IPv4 fields. -/
def expectDot : List Char → Option (List Char)
  | '.' :: r => some r
  | _ => none

/-- Dotted-quad IPv4 parser: exactly four fields separated by dots, nothing
left over. -/
def parseIPv4 (s : List Char) : Option (List Nat) :=
  (parseIPv4Field s).bind fun p1 =>
    (expectDot p1.2).bind fun r1 =>
      (parseIPv4Field r1).bind fun p2 =>
        (expectDot p2.2).bind fun r2 =>
          (parseIPv4Field r2).bind fun p3 =>
            (expectDot p3.2).bind fun r3 =>
              (parseIPv4Field r3).bind fun p4f =>
                if p4f.2.isEmpty then some [p1.1, p2.1, p3.1, p4f.1] else none

/-- Hexadecimal digit test for IPv6 groups. -/
def isHexDigit (c : Char) : Bool :=
  c.isDigit || ('a' ≤ c && c ≤ 'f') || ('A' ≤ c && c ≤ 'F')

/-- Value of a hexadecimal digit. -/
def hexVal (c : Char) : Nat :=
  if c.isDigit then c.toNat - 48
  else if 'a' ≤ c then c.toNat - 87
  else c.toNat - 55

/-- Pad a partial IPv6 byte list to 16 bytes by expanding the `::` ellipsis
(recorded as a byte position) with zeros; fails when no ellipsis was seen and
fewer than 16 bytes were read, or when an ellipsis expands to nothing. -/
def ipv6Finalize (bytes : List Nat) (ell : Option Nat) : Option (List Nat) :=
  if bytes.length < 16 then
    match ell with
    | none => none
    | some e => some (bytes.take e ++ List.replicate (16 - bytes.length) 0 ++ bytes.drop e)
  else
    match ell with
    | none => some bytes
    | some _ => none

/-- Main IPv6 parsing loop (Go `parseIPv6`): per iteration read a non-empty
hex digit group whose value must stay below 2^16, or switch to an embedded
dotted-quad tail
(allowed at byte offset 12, or anywhere the ellipsis makes the offset
flexible); group separators are single colons, with `::` marking the one
allowed ellipsis.  `fuel` bounds the recursion (the Go loop runs at most 8
iterations). -/
def parseIPv6Loop : Nat → List Char → List Nat → Option Nat → Option (List Nat)
  | 0, s, bytes, ell => if s.isEmpty then ipv6Finalize bytes ell else none
  | fuel + 1, s, bytes, ell =>
    if 16 ≤ bytes.length then
      if s.isEmpty then ipv6Finalize bytes ell else none
    else
      let ds := s.takeWhile isHexDigit
      let rest := s.dropWhile isHexDigit
      if ds.isEmpty then none
      else
        let acc := ds.foldl (fun a c => a * 16 + hexVal c) 0
        if 0xFFFF < acc then none
        else match rest with
        | '.' :: _ =>
          if ell.isNone && !(bytes.length == 12) then none
          else if 16 < bytes.length + 4 then none
          else
            match parseIPv4 s with
            | none => none
            | some q => ipv6Finalize (bytes ++ q) ell
        | [] => ipv6Finalize (bytes ++ [acc / 256, acc % 256]) ell
        | [':'] => none
        | ':' :: ':' :: rest2 =>
          if ell.isSome then none
          else
            let bytes2 := bytes ++ [acc / 256, acc % 256]
            if rest2.isEmpty then ipv6Finalize bytes2 (some bytes2.length)
            else parseIPv6Loop fuel rest2 bytes2 (some bytes2.length)
        | ':' :: rest2 => parseIPv6Loop fuel rest2 (bytes ++ [acc / 256, acc % 256]) ell
        | _ => none

/-- IPv6 parser: an optional leading `::`, then the group loop. -/
def parseIPv6 (s : List Char) : Option (List Nat) :=
  match s with
  | ':' :: ':' :: rest =>
    if rest.isEmpty then some (List.replicate 16 0)
    else parseIPv6Loop 16 rest [] (some 0)
  | _ => parseIPv6Loop 16 s [] none

/-- `net.ParseIP`: dispatch on the first special character — a dot means
IPv4, a colon means IPv6, a percent (zone) or no special character at all
means invalid.  Returns 4 bytes for IPv4, 16 for IPv6. -/
def parseIP (s : String) : Option (List Nat) :=
  match s.data.find? (fun c => c == '.' || c == ':' || c == '%') with
  | some '.' => parseIPv4 s.data
  | some ':' => parseIPv6 s.data
  | _ => none

/-- Go `isZeros`. -/
def isZeros : List Nat → Bool
  | [] => true
  | b :: rest => b == 0 && isZeros rest

/-- `net.IP.To4`: a 4-byte address is itself; a 16-byte IPv4-mapped address
(ten zero bytes then `0xff 0xff`) is its last four bytes; anything else is
`nil` (`[]`). -/
def to4 (ip : List Nat) : List Nat :=
  if ip.length = 4 then ip
  else if ip.length = 16 && isZeros (ip.take 10) &&
      (ip.getD 10 0 == 255) && (ip.getD 11 0 == 255) then
    ip.drop 12
  else []

/-- The bytes of a contiguous mask of `ones` leading one bits over `n` bytes
(the loop body of `net.CIDRMask`); a partial byte is `^(0xff >> ones)`. -/
def maskBytes : Nat → Nat → List Nat
  | _, 0 => []
  | ones, n + 1 =>
    if 8 ≤ ones then 255 :: maskBytes (ones - 8) n
    else (255 - 255 / 2 ^ ones) :: maskBytes 0 n

/-- `net.CIDRMask(ones, bits)`: only 32- and 128-bit masks exist, and the
count of one bits must lie within `[0, bits]`; otherwise `nil` (`[]`). -/
def cidrMask (ones : Int) (bits : Nat) : List Nat :=
  if bits ≠ 32 ∧ bits ≠ 128 then []
  else if ones < 0 ∨ (bits : Int) < ones then []
  else maskBytes ones.toNat (bits / 8)

/-- The IPv4-in-IPv6 prefix (`v4InV6Prefix`). -/
def v4InV6Pre : List Nat := [0, 0, 0, 0, 0, 0, 0, 0, 0, 0, 255, 255]

/-- `net.IP.Mask`: after adapting a 16-byte mask to a 4-byte address (and the
converse for IPv4-mapped addresses), bytewise AND; mismatched lengths give
`nil` (`[]`). -/
def maskIP (ip mask : List Nat) : List Nat :=
  let mask2 :=
    if mask.length = 16 && ip.length = 4 && isZeros ((mask.take 12).map (fun b => 255 - b)) then
      mask.drop 12
    else mask
  let ip2 :=
    if mask2.length = 4 && ip.length = 16 && decide (ip.take 12 = v4InV6Pre) then ip.drop 12
    else ip
  if ip2.length ≠ mask2.length then []
  else List.zipWith (fun a b => Nat.land a b) ip2 mask2

/-- Dotted-decimal rendering of a 4-byte address. -/
def ipv4String (ip : List Nat) : String :=
  String.intercalate "." (ip.map (fun b => toString b))

/-- 16-bit groups of a byte list. -/
def toGroups : List Nat → List Nat
  | a :: b :: rest => (a * 256 + b) :: toGroups rest
  | _ => []

/-- Length of the zero-group run starting here. -/
def zeroRunLen : List Nat → Nat
  | 0 :: rest => 1 + zeroRunLen rest
  | _ => 0

/-- Leftmost longest zero run over the group list (strictly longer runs win,
as in Go's `IP.String`). -/
def bestRunAux : List Nat → Nat → Option (Nat × Nat) → Option (Nat × Nat)
  | [], _, best => best
  | g :: rest, i, best =>
    let l := zeroRunLen (g :: rest)
    let best2 :=
      match best with
      | none => if 0 < l then some (i, l) else none
      | some (_, bl) => if bl < l then some (i, l) else best
    bestRunAux rest (i + 1) best2

/-- The `::` compression window: the leftmost longest zero-group run, kept
only when it spans at least two groups. -/
def bestRun (gs : List Nat) : Option (Nat × Nat) :=
  match bestRunAux gs 0 none with
  | some (s, l) => if 2 ≤ l then some (s, l) else none
  | none => none

/-- One lowercase hexadecimal digit. -/
def hexDigitChar (n : Nat) : Char :=
  if n < 10 then Char.ofNat (48 + n) else Char.ofNat (87 + n)

/-- Hex digits of `n` (no leading zeros), with recursion fuel. -/
def hexStrAux : Nat → Nat → List Char
  | 0, _ => []
  | _, 0 => []
  | fuel + 1, n => hexStrAux fuel (n / 16) ++ [hexDigitChar (n % 16)]

/-- Lowercase hexadecimal rendering of a group value. -/
def hexStr (n : Nat) : String :=
  if n = 0 then "0" else ⟨hexStrAux 8 n⟩

/-- RFC 5952 rendering of a 16-byte IPv6 address: groups in lowercase hex,
the leftmost longest run of two or more zero groups compressed to `::`. -/
def ipv6String (ip : List Nat) : String :=
  let gs := toGroups ip
  match bestRun gs with
  | none => String.intercalate ":" (gs.map hexStr)
  | some (s, l) =>
    String.intercalate ":" ((gs.take s).map hexStr) ++ "::" ++
      String.intercalate ":" ((gs.drop (s + l)).map hexStr)

/-- Two-digit hexadecimal rendering of one byte (Go `hexString` helper). -/
def byteHex (b : Nat) : String :=
  ⟨[hexDigitChar (b / 16 % 16), hexDigitChar (b % 16)]⟩

/-- `net.IP.String`: `nil` renders as `"<nil>"`, 4-byte (or IPv4-mapped)
addresses as dotted quads, other 16-byte addresses per RFC 5952, and odd
lengths as `"?"` plus raw hex. -/
def ipString (ip : List Nat) : String :=
  if ip.isEmpty then "<nil>"
  else if (to4 ip).length = 4 then ipv4String (to4 ip)
  else if ip.length ≠ 16 then "?" ++ String.join (ip.map byteHex)
  else ipv6String ip

/-- Go `simpleMaskLength`: the number of leading one bits when the mask is
contiguous ones followed by zeros, else `none` (Go's `-1`). -/
def simpleMaskLength (mask : List Nat) : Option Nat :=
  let bits := (mask.map (fun v =>
    [v / 128 % 2 == 1, v / 64 % 2 == 1, v / 32 % 2 == 1, v / 16 % 2 == 1,
     v / 8 % 2 == 1, v / 4 % 2 == 1, v / 2 % 2 == 1, v % 2 == 1])).flatten
  if (bits.dropWhile (fun b => b)).all (fun b => b == false) then
    some (bits.takeWhile (fun b => b)).length
  else none

/-- Hexadecimal rendering of a mask (`net.IPMask.String`). -/
def maskHexString (mask : List Nat) : String :=
  if mask.isEmpty then "<nil>" else String.join (mask.map byteHex)

/-- Go `networkNumberAndMask`: normalize the address to 4 bytes when
IPv4(-mapped), keep 16 bytes otherwise, and cut a 16-byte mask down to 4
bytes for a 4-byte address; incompatible combinations yield `none`. -/
def networkNumberAndMask (ip mask : List Nat) : Option (List Nat × List Nat) :=
  let ip2 := if (to4 ip).length = 4 then to4 ip else ip
  if (to4 ip).length ≠ 4 ∧ ip.length ≠ 16 then none
  else if mask.length = 4 then
    if ip2.length ≠ 4 then none else some (ip2, mask)
  else if mask.length = 16 then
    if ip2.length = 4 then some (ip2, mask.drop 12) else some (ip2, mask)
  else none

/-- `net.IPNet.String`: the network number rendered as an address, a slash,
and the mask as a prefix length when contiguous (hex otherwise); degenerate
inputs render as `"<nil>"`. -/
def ipNetString (ip mask : List Nat) : String :=
  match networkNumberAndMask ip mask with
  | none => "<nil>"
  | some (nn, m) =>
    if nn.isEmpty || m.isEmpty then "<nil>"
    else
      match simpleMaskLength m with
      | none => ipString nn ++ "/" ++ maskHexString m
      | some l => ipString nn ++ "/" ++ toString l

/-- `normalizeIPWithOptionalPrefixes` (policy/emergency_filter.go): parseable
IPv4 addresses are masked to `p4` bits and rendered as a CIDR when `p4 > 0`,
else rendered exactly; symmetrically for IPv6 with `p6`; unparsable input is
returned unchanged. -/
def normalizeIPWithOptionalPrefixes (ipStr : String) (p4 p6 : Int) : String :=
  match parseIP ipStr with
  | none => ipStr
  | some ip =>
    if (to4 ip).length = 4 then
      if 0 < p4 then ipNetString (maskIP (to4 ip) (cidrMask p4 32)) (cidrMask p4 32)
      else ipString (to4 ip)
    else
      if 0 < p6 then ipNetString (maskIP ip (cidrMask p6 128)) (cidrMask p6 128)
      else ipString ip

/-! ## Well-formedness of the parsers: lengths and byte bounds -/

theorem parseIPv4Field_le (s : List Char) (n : Nat) (rest : List Char)
    (h : parseIPv4Field s = some (n, rest)) : n ≤ 255 := by
  simp only [parseIPv4Field] at h
  split at h
  · exact absurd h (by simp)
  · split at h
    · exact absurd h (by simp)
    · split at h
      next hgt => exact absurd h (by simp)
      next hgt =>
        simp only [Option.some.injEq, Prod.mk.injEq] at h
        omega

theorem parseIPv4_wf (s : List Char) (q : List Nat) (h : parseIPv4 s = some q) :
    q.length = 4 ∧ ∀ b ∈ q, b ≤ 255 := by
  unfold parseIPv4 at h
  simp only [Option.bind_eq_some] at h
  obtain ⟨p1, hp1, r1, _, p2, hp2, r2, _, p3, hp3, r3, _, p4f, hp4, h⟩ := h
  split at h
  · simp only [Option.some.injEq] at h
    subst h
    refine ⟨rfl, ?_⟩
    intro b hb
    simp only [List.mem_cons, List.not_mem_nil, or_false] at hb
    rcases hb with hb | hb | hb | hb <;> subst hb
    · exact parseIPv4Field_le _ _ _ (by rw [hp1])
    · exact parseIPv4Field_le _ _ _ (by rw [hp2])
    · exact parseIPv4Field_le _ _ _ (by rw [hp3])
    · exact parseIPv4Field_le _ _ _ (by rw [hp4])
  · exact absurd h (by simp)

theorem ipv6Finalize_wf (bytes : List Nat) (ell : Option Nat) (out : List Nat)
    (h : ipv6Finalize bytes ell = some out)
    (hb : ∀ b ∈ bytes, b ≤ 255)
    (he : ∀ e, ell = some e → e ≤ bytes.length)
    (hlen : bytes.length ≤ 16) :
    out.length = 16 ∧ ∀ b ∈ out, b ≤ 255 := by
  unfold ipv6Finalize at h
  split at h
  next hlt =>
    cases ell with
    | none => exact absurd h (by simp)
    | some e =>
      have he2 := he e rfl
      simp only [Option.some.injEq] at h
      subst h
      constructor
      · simp only [List.length_append, List.length_take, List.length_replicate,
          List.length_drop]
        omega
      · intro b hbm
        simp only [List.mem_append] at hbm
        rcases hbm with (hbm | hbm) | hbm
        · exact hb b (List.mem_of_mem_take hbm)
        · rw [List.eq_of_mem_replicate hbm]; omega
        · exact hb b (List.mem_of_mem_drop hbm)
  next hge =>
    cases ell with
    | none =>
      simp only [Option.some.injEq] at h
      subst h
      exact ⟨by omega, hb⟩
    | some e => exact absurd h (by simp)

theorem parseIPv6Loop_wf : ∀ (fuel : Nat) (s : List Char) (bytes : List Nat)
    (ell : Option Nat) (out : List Nat),
    parseIPv6Loop fuel s bytes ell = some out →
    (∀ b ∈ bytes, b ≤ 255) →
    (∀ e, ell = some e → e ≤ bytes.length) →
    bytes.length ≤ 16 →
    bytes.length % 2 = 0 →
    out.length = 16 ∧ ∀ b ∈ out, b ≤ 255 := by
  intro fuel
  induction fuel with
  | zero =>
    intro s bytes ell out h hb he hlen _
    simp only [parseIPv6Loop] at h
    split at h
    · exact ipv6Finalize_wf _ _ _ h hb he hlen
    · exact absurd h (by simp)
  | succ n ih =>
    intro s bytes ell out h hb he hlen heven
    simp only [parseIPv6Loop] at h
    split at h
    · split at h
      · exact ipv6Finalize_wf _ _ _ h hb he hlen
      · exact absurd h (by simp)
    next hlt =>
      split at h
      · exact absurd h (by simp)
      · split at h
        next hacc => exact absurd h (by simp)
        next hacc =>
          have haccle : (s.takeWhile isHexDigit).foldl (fun a c => a * 16 + hexVal c) 0 ≤ 65535 := by
            omega
          have hb2 : ∀ b ∈ bytes ++
              [(s.takeWhile isHexDigit).foldl (fun a c => a * 16 + hexVal c) 0 / 256,
               (s.takeWhile isHexDigit).foldl (fun a c => a * 16 + hexVal c) 0 % 256],
              b ≤ 255 := by
            intro b hbm
            rcases List.mem_append.mp hbm with hbm | hbm
            · exact hb b hbm
            · simp only [List.mem_cons, List.not_mem_nil, or_false] at hbm
              rcases hbm with hbm | hbm <;> subst hbm
              · omega
              · exact Nat.le_of_lt_succ (Nat.mod_lt _ (by omega))
          split at h
          · -- embedded IPv4 tail
            split at h
            · exact absurd h (by simp)
            · split at h
              · exact absurd h (by simp)
              next hle4 =>
                split at h
                next => exact absurd h (by simp)
                next q hq =>
                  obtain ⟨hq4, hqb⟩ := parseIPv4_wf _ _ hq
                  refine ipv6Finalize_wf _ _ _ h ?_ ?_ ?_
                  · intro b hbm
                    rcases List.mem_append.mp hbm with hbm | hbm
                    · exact hb b hbm
                    · exact hqb b hbm
                  · intro e hee
                    have := he e hee
                    simp only [List.length_append]
                    omega
                  · simp only [List.length_append, hq4]
                    omega
          · -- group at end of input
            refine ipv6Finalize_wf _ _ _ h hb2 ?_ ?_
            · intro e hee
              have := he e hee
              simp only [List.length_append]
              omega
            · simp only [List.length_append]
              simp only [List.length_cons, List.length_nil]
              omega
          · exact absurd h (by simp)
          · -- double colon
            split at h
            · exact absurd h (by simp)
            next hell =>
              split at h
              · refine ipv6Finalize_wf _ _ _ h hb2 ?_ ?_
                · intro e hee
                  simp only [Option.some.injEq] at hee
                  omega
                · simp only [List.length_append, List.length_cons, List.length_nil]
                  omega
              · refine ih _ _ _ _ h hb2 ?_ ?_ ?_
                · intro e hee
                  simp only [Option.some.injEq] at hee
                  omega
                · simp only [List.length_append, List.length_cons, List.length_nil]
                  omega
                · simp only [List.length_append, List.length_cons, List.length_nil]
                  omega
          · -- single colon
            refine ih _ _ _ _ h hb2 ?_ ?_ ?_
            · intro e hee
              have := he e hee
              simp only [List.length_append]
              omega
            · simp only [List.length_append, List.length_cons, List.length_nil]
              omega
            · simp only [List.length_append, List.length_cons, List.length_nil]
              omega
          · exact absurd h (by simp)

theorem parseIPv6_wf (s : List Char) (out : List Nat) (h : parseIPv6 s = some out) :
    out.length = 16 ∧ ∀ b ∈ out, b ≤ 255 := by
  unfold parseIPv6 at h
  split at h
  · split at h
    · simp only [Option.some.injEq] at h
      subst h
      refine ⟨by simp, ?_⟩
      intro b hbm
      rw [List.eq_of_mem_replicate hbm]
      omega
    · exact parseIPv6Loop_wf _ _ _ _ _ h (by simp) (by intro e he; simp at he; omega)
        (by simp) (by simp)
  · exact parseIPv6Loop_wf _ _ _ _ _ h (by simp) (by intro e he; simp at he)
      (by simp) (by simp)

theorem parseIP_wf (s : String) (ip : List Nat) (h : parseIP s = some ip) :
    (ip.length = 4 ∨ ip.length = 16) ∧ ∀ b ∈ ip, b ≤ 255 := by
  unfold parseIP at h
  split at h
  · obtain ⟨h4, hb⟩ := parseIPv4_wf _ _ h
    exact ⟨Or.inl h4, hb⟩
  · obtain ⟨h16, hb⟩ := parseIPv6_wf _ _ h
    exact ⟨Or.inr h16, hb⟩
  · exact absurd h (by simp)

/-! ## Mask lemmas -/

theorem maskBytes_length : ∀ (k n : Nat), (maskBytes k n).length = n := by
  intro k n
  induction n generalizing k with
  | zero => rfl
  | succ m ih =>
    unfold maskBytes
    split <;> simp [ih]

theorem maskBytes_le : ∀ (k n : Nat), ∀ b ∈ maskBytes k n, b ≤ 255 := by
  intro k n
  induction n generalizing k with
  | zero => intro b hb; simp [maskBytes] at hb
  | succ m ih =>
    intro b hb
    unfold maskBytes at hb
    split at hb
    next =>
      rcases List.mem_cons.mp hb with hb | hb
      · omega
      · exact ih _ b hb
    next =>
      rcases List.mem_cons.mp hb with hb | hb
      · subst hb; exact Nat.sub_le _ _
      · exact ih _ b hb

theorem simpleMaskLength_maskBytes4 :
    ∀ k : Fin 33, simpleMaskLength (maskBytes k.val 4) = some k.val := by decide

set_option maxRecDepth 10000 in
theorem simpleMaskLength_maskBytes16 :
    ∀ k : Fin 129, simpleMaskLength (maskBytes k.val 16) = some k.val := by decide

theorem maskBytes_split96 :
    ∀ j : Fin 33, maskBytes (96 + j.val) 16 = List.replicate 12 255 ++ maskBytes j.val 4 := by
  decide

theorem maskBytes16_getD11_lt :
    ∀ k : Fin 96, (maskBytes k.val 16).getD 11 0 < 255 := by decide

/-- Bytewise AND against an all-`0xff` mask is the identity on byte lists. -/
theorem zipWith_land_255 : ∀ (l : List Nat), (∀ b ∈ l, b ≤ 255) →
    List.zipWith (fun a b => Nat.land a b) l (List.replicate l.length 255) = l := by
  intro l
  induction l with
  | nil => intro _; rfl
  | cons x rest ih =>
    intro hb
    simp only [List.length_cons, List.replicate_succ, List.zipWith_cons_cons]
    have hx : Nat.land x 255 = x := by
      have hxle : x ≤ 255 := hb x (List.mem_cons_self _ _)
      have h8 : x &&& 2 ^ 8 - 1 = x :=
        Nat.and_pow_two_sub_one_of_lt_two_pow (by omega)
      simpa using h8
    rw [hx, ih (fun b hbm => hb b (List.mem_cons_of_mem _ hbm))]

/-! ## `To4` is stable under masking (for addresses that are not IPv4-mapped) -/

theorem getD_zipWith (f : Nat → Nat → Nat) :
    ∀ (l1 l2 : List Nat) (i : Nat), i < l1.length → i < l2.length →
      (List.zipWith f l1 l2).getD i 0 = f (l1.getD i 0) (l2.getD i 0) := by
  intro l1
  induction l1 with
  | nil => intro l2 i h1 _; simp at h1
  | cons x r ih =>
    intro l2 i h1 h2
    cases l2 with
    | nil => simp at h2
    | cons y r2 =>
      cases i with
      | zero => rfl
      | succ j =>
        simpa using ih r2 j (by simpa using h1) (by simpa using h2)

theorem getD_take : ∀ (l : List Nat) (n i : Nat), i < n → (l.take n).getD i 0 = l.getD i 0 := by
  intro l
  induction l with
  | nil => intro n i _; simp
  | cons x r ih =>
    intro n i hin
    cases n with
    | zero => omega
    | succ m =>
      cases i with
      | zero => rfl
      | succ j => simpa using ih m j (by omega)

theorem to4_nil_iff_16 (x : List Nat) (hx : x.length = 16) :
    to4 x = [] ↔
      ¬(isZeros (x.take 10) = true ∧ x.getD 10 0 = 255 ∧ x.getD 11 0 = 255) := by
  unfold to4
  rw [if_neg (by omega)]
  split
  next hcond =>
    simp only [Bool.and_eq_true, beq_iff_eq, decide_eq_true_eq] at hcond
    constructor
    · intro hdn
      exfalso
      have hdrop : (x.drop 12).length = 4 := by simp [hx]
      rw [hdn] at hdrop
      simp at hdrop
    · intro hn
      exact absurd ⟨hcond.1.1.2, hcond.1.2, hcond.2⟩ hn
  next hcond =>
    simp only [Bool.and_eq_true, beq_iff_eq, decide_eq_true_eq] at hcond
    constructor
    · intro _ hcon
      exact hcond ⟨⟨⟨hx, hcon.1⟩, hcon.2.1⟩, hcon.2.2⟩
    · intro _
      rfl

theorem to4_mask_nil (ip : List Nat) (k : Nat)
    (h16 : ip.length = 16) (hb : ∀ b ∈ ip, b ≤ 255)
    (hnil : to4 ip = []) (hk : k ≤ 128) :
    to4 (List.zipWith (fun a b => Nat.land a b) ip (maskBytes k 16)) = [] := by
  by_cases h96 : 96 ≤ k
  · have hsplit := maskBytes_split96 ⟨k - 96, by omega⟩
    simp only at hsplit
    rw [show 96 + (k - 96) = k by omega] at hsplit
    have hlen12 : (ip.take 12).length = 12 := by rw [List.length_take]; omega
    have hmask : List.zipWith (fun a b => Nat.land a b) ip (maskBytes k 16) =
        ip.take 12 ++
          List.zipWith (fun a b => Nat.land a b) (ip.drop 12) (maskBytes (k - 96) 4) := by
      conv_lhs => rw [(List.take_append_drop 12 ip).symm, hsplit]
      rw [List.zipWith_append _ _ _ _ _ (by simp [hlen12])]
      congr 1
      rw [show List.replicate 12 (255 : Nat) = List.replicate (ip.take 12).length 255 by
        rw [hlen12]]
      exact zipWith_land_255 _ (fun b hbm => hb b (List.mem_of_mem_take hbm))
    rw [hmask]
    have hmlen : (ip.take 12 ++
        List.zipWith (fun a b => Nat.land a b) (ip.drop 12) (maskBytes (k - 96) 4)).length
          = 16 := by
      simp [List.length_zipWith, hlen12, List.length_drop, maskBytes_length, h16]
    rw [to4_nil_iff_16 _ hmlen]
    rw [to4_nil_iff_16 _ h16] at hnil
    intro hcond
    apply hnil
    obtain ⟨h1, h2, h3⟩ := hcond
    refine ⟨?_, ?_, ?_⟩
    · have he : (ip.take 12 ++
          List.zipWith (fun a b => Nat.land a b) (ip.drop 12) (maskBytes (k - 96) 4)).take 10
            = ip.take 10 := by
        rw [List.take_append_of_le_length (by omega), List.take_take]
        simp
      rwa [he] at h1
    · have he : (ip.take 12 ++
          List.zipWith (fun a b => Nat.land a b) (ip.drop 12) (maskBytes (k - 96) 4)).getD 10 0
            = ip.getD 10 0 := by
        rw [List.getD_append _ _ _ _ (by omega), getD_take _ _ _ (by omega)]
      rwa [he] at h2
    · have he : (ip.take 12 ++
          List.zipWith (fun a b => Nat.land a b) (ip.drop 12) (maskBytes (k - 96) 4)).getD 11 0
            = ip.getD 11 0 := by
        rw [List.getD_append _ _ _ _ (by omega), getD_take _ _ _ (by omega)]
      rwa [he] at h3
  · have hm11 : (maskBytes k 16).getD 11 0 < 255 := maskBytes16_getD11_lt ⟨k, by omega⟩
    have hlen : (List.zipWith (fun a b => Nat.land a b) ip (maskBytes k 16)).length = 16 := by
      simp [List.length_zipWith, maskBytes_length, h16]
    rw [to4_nil_iff_16 _ hlen]
    rintro ⟨-, -, h3⟩
    have h11 : (List.zipWith (fun a b => Nat.land a b) ip (maskBytes k 16)).getD 11 0 =
        Nat.land (ip.getD 11 0) ((maskBytes k 16).getD 11 0) :=
      getD_zipWith _ _ _ _ (by omega) (by rw [maskBytes_length]; omega)
    rw [h11] at h3
    have hle : Nat.land (ip.getD 11 0) ((maskBytes k 16).getD 11 0) ≤
        (maskBytes k 16).getD 11 0 := Nat.and_le_right
    omega

/-! ## Rendering lemmas for CIDR strings -/

theorem to4_len4 (x : List Nat) (hx : x.length = 4) : to4 x = x := by
  unfold to4
  rw [if_pos hx]

theorem to4_cases (x : List Nat) : to4 x = [] ∨ (to4 x).length = 4 := by
  unfold to4
  split
  next h => right; simpa using h
  next =>
    split
    next hcond =>
      right
      simp only [Bool.and_eq_true, decide_eq_true_eq] at hcond
      simp [hcond.1.1.1]
    next => left; rfl

theorem cidrMask32_eq (p : Int) (h0 : 0 < p) (h32 : p ≤ 32) :
    cidrMask p 32 = maskBytes p.toNat 4 := by
  unfold cidrMask
  rw [if_neg (by simp), if_neg (by omega)]

theorem cidrMask128_eq (p : Int) (h0 : 0 < p) (h128 : p ≤ 128) :
    cidrMask p 128 = maskBytes p.toNat 16 := by
  unfold cidrMask
  rw [if_neg (by simp), if_neg (by omega)]

theorem maskIP_four (q m : List Nat) (hq : q.length = 4) (hm : m.length = 4) :
    maskIP q m = List.zipWith (fun a b => Nat.land a b) q m := by
  unfold maskIP
  simp [hq, hm]

theorem maskIP_sixteen (y m : List Nat) (hy : y.length = 16) (hm : m.length = 16) :
    maskIP y m = List.zipWith (fun a b => Nat.land a b) y m := by
  unfold maskIP
  simp [hy, hm]

theorem ipNetString_v4 (y m : List Nat) (hy : y.length = 4) (hm4 : m.length = 4) (l : Nat)
    (hsml : simpleMaskLength m = some l) :
    ipNetString y m = ipv4String y ++ "/" ++ toString l := by
  have hto4y : to4 y = y := to4_len4 y hy
  have hyne : y.isEmpty = false := by
    cases y with
    | nil => simp at hy
    | cons a r => rfl
  have hmne : m.isEmpty = false := by
    cases m with
    | nil => simp at hm4
    | cons a r => rfl
  have hnn : networkNumberAndMask y m = some (y, m) := by
    unfold networkNumberAndMask
    simp [hto4y, hy, hm4]
  have hips : ipString y = ipv4String y := by
    unfold ipString
    simp [hyne, hto4y, hy]
  unfold ipNetString
  rw [hnn]
  simp [hyne, hmne, hsml, hips]

theorem ipNetString_v6 (y m : List Nat) (hy : y.length = 16) (hto4 : to4 y = [])
    (hm : m.length = 16) (l : Nat) (hsml : simpleMaskLength m = some l) :
    ipNetString y m = ipv6String y ++ "/" ++ toString l := by
  have hyne : y.isEmpty = false := by
    cases y with
    | nil => simp at hy
    | cons a r => rfl
  have hmne : m.isEmpty = false := by
    cases m with
    | nil => simp at hm
    | cons a r => rfl
  have hnn : networkNumberAndMask y m = some (y, m) := by
    unfold networkNumberAndMask
    simp [hto4, hy, hm]
  have hips : ipString y = ipv6String y := by
    unfold ipString
    simp [hyne, hto4, hy]
  unfold ipNetString
  rw [hnn]
  simp [hyne, hmne, hsml, hips]

/-- C5: for every address string, `normalizeIPWithOptionalPrefixes` returns
unparsable input unchanged; an address parsing as IPv4 is masked to `p4` bits
and rendered as a CIDR string when `0 < p4` (for prefix lengths up to 32),
else rendered as the exact dotted-quad address; symmetrically an IPv6 address
is masked to `p6` bits and rendered as a CIDR string when `0 < p6` (up to
128), else rendered exactly; and concretely `203.0.113.77` with IPv4 prefix
24 normalizes to `203.0.113.0/24`. -/
theorem normalizeIP_spec (s : String) (p4 p6 : Int) :
    (parseIP s = none → normalizeIPWithOptionalPrefixes s p4 p6 = s) ∧
    (∀ ip, parseIP s = some ip → (to4 ip).length = 4 →
      (0 < p4 → p4 ≤ 32 →
        normalizeIPWithOptionalPrefixes s p4 p6 =
          ipv4String (maskIP (to4 ip) (cidrMask p4 32)) ++ "/" ++ toString p4.toNat) ∧
      (p4 ≤ 0 → normalizeIPWithOptionalPrefixes s p4 p6 = ipv4String (to4 ip))) ∧
    (∀ ip, parseIP s = some ip → (to4 ip).length ≠ 4 →
      (0 < p6 → p6 ≤ 128 →
        normalizeIPWithOptionalPrefixes s p4 p6 =
          ipv6String (maskIP ip (cidrMask p6 128)) ++ "/" ++ toString p6.toNat) ∧
      (p6 ≤ 0 → normalizeIPWithOptionalPrefixes s p4 p6 = ipv6String ip)) ∧
    normalizeIPWithOptionalPrefixes "203.0.113.77" 24 0 = "203.0.113.0/24" := by
  refine ⟨?_, ?_, ?_, by decide⟩
  · intro hn
    unfold normalizeIPWithOptionalPrefixes
    rw [hn]
  · intro ip hps h4
    have hwf := parseIP_wf s ip hps
    constructor
    · intro hp1 hp2
      unfold normalizeIPWithOptionalPrefixes
      rw [hps]
      simp only [h4, if_pos rfl, if_pos hp1]
      rw [cidrMask32_eq p4 hp1 hp2]
      have hm4 : (maskBytes p4.toNat 4).length = 4 := maskBytes_length _ _
      rw [maskIP_four _ _ h4 hm4]
      have hzlen : (List.zipWith (fun a b => Nat.land a b) (to4 ip)
          (maskBytes p4.toNat 4)).length = 4 := by
        simp [List.length_zipWith, h4, hm4]
      rw [ipNetString_v4 _ _ hzlen hm4 p4.toNat
        (by
          have := simpleMaskLength_maskBytes4 ⟨p4.toNat, by omega⟩
          simpa using this)]
      simp
    · intro hp0
      unfold normalizeIPWithOptionalPrefixes
      rw [hps]
      simp only [h4, if_pos rfl, if_neg (by omega : ¬(0 < p4))]
      unfold ipString
      have hyne : (to4 ip).isEmpty = false := by
        cases hto : to4 ip with
        | nil => rw [hto] at h4; simp at h4
        | cons a r => rfl
      have hto2 : to4 (to4 ip) = to4 ip := to4_len4 _ h4
      simp [hyne, hto2, h4]
  · intro ip hps hne4
    have hwf := parseIP_wf s ip hps
    have h16 : ip.length = 16 := by
      rcases hwf.1 with h | h
      · exact absurd (by rw [to4_len4 _ h]; exact h) hne4
      · exact h
    have hnil : to4 ip = [] := by
      rcases to4_cases ip with h | h
      · exact h
      · exact absurd h hne4
    constructor
    · intro hp1 hp2
      unfold normalizeIPWithOptionalPrefixes
      rw [hps]
      simp only [if_neg hne4, if_pos hp1]
      rw [cidrMask128_eq p6 hp1 hp2]
      have hm16 : (maskBytes p6.toNat 16).length = 16 := maskBytes_length _ _
      rw [maskIP_sixteen _ _ h16 hm16]
      have hzlen : (List.zipWith (fun a b => Nat.land a b) ip
          (maskBytes p6.toNat 16)).length = 16 := by
        simp [List.length_zipWith, h16, hm16]
      have hznil : to4 (List.zipWith (fun a b => Nat.land a b) ip
          (maskBytes p6.toNat 16)) = [] :=
        to4_mask_nil ip p6.toNat h16 hwf.2 hnil (by omega)
      rw [ipNetString_v6 _ _ hzlen hznil hm16 p6.toNat
        (by
          have := simpleMaskLength_maskBytes16 ⟨p6.toNat, by omega⟩
          simpa using this)]
    · intro hp0
      unfold normalizeIPWithOptionalPrefixes
      rw [hps]
      simp only [if_neg hne4, if_neg (show ¬(0 < p6) by omega)]
      unfold ipString
      have hyne : ip.isEmpty = false := by
        cases hto : ip with
        | nil => rw [hto] at h16; simp at h16
        | cons a r => rfl
      simp [hyne, hnil, h16]

/-- Witness for C5: the concrete behaviours on a parseable IPv4 address (with
the CIDR conclusion both via the theorem and evaluated), an unparsable
string, and an IPv6 address. -/
theorem normalizeIP_spec_witness :
    parseIP "203.0.113.77" = some [203, 0, 113, 77] ∧
    normalizeIPWithOptionalPrefixes "203.0.113.77" 24 0 =
      ipv4String (maskIP (to4 [203, 0, 113, 77]) (cidrMask 24 32)) ++ "/" ++
        toString (24 : Int).toNat ∧
    normalizeIPWithOptionalPrefixes "203.0.113.77" 24 0 = "203.0.113.0/24" ∧
    normalizeIPWithOptionalPrefixes "not-an-ip" 24 64 = "not-an-ip" ∧
    normalizeIPWithOptionalPrefixes "2001:db8::1" 24 64 = "2001:db8::/64" := by
  refine ⟨by decide, ?_, ?_, ?_, by decide⟩
  · exact ((normalizeIP_spec "203.0.113.77" 24 0).2.1 [203, 0, 113, 77]
      (by decide) (by decide)).1 (by decide) (by decide)
  · exact (normalizeIP_spec "203.0.113.77" 24 0).2.2.2
  · exact (normalizeIP_spec "not-an-ip" 24 64).1 (by decide)

/-! ## policy/emergency_filter.go -/

/-- `config.EmergencyFilterConfig` (fields used by the filter; cache sizes and
TTLs govern eviction only and are not part of this model).  The Go names
`IPv4Prefix`/`IPv6Prefix` are `pfx4`/`pfx6` here. -/
structure EmergencyFilterConfig where
  enabled : Bool
  newKeysRate : ℚ
  newKeysBurst : ℚ
  perIPOn : Bool
  perIPConfRate : ℚ
  perIPConfBurst : ℚ
  pfx4 : Int
  pfx6 : Int
deriving DecidableEq, Repr

/-- `EmergencyFilter`: `enabled = false` models the zero filter whose
`newKeyLimiter` pointer is nil. -/
structure EmergencyFilter where
  enabled : Bool
  newKeyLimiter : Limiter
  recentSeen : Cache Unit
  perIPEnabled : Bool
  perIPLimiters : Cache Limiter
  perIPRate : ℚ
  perIPBurst : ℚ
  pfx4 : Int
  pfx6 : Int
deriving DecidableEq, Repr

/-- The zero `EmergencyFilter` (`&EmergencyFilter{}`). -/
def EmergencyFilter.zero : EmergencyFilter :=
  { enabled := false, newKeyLimiter := Limiter.new 0 0 0, recentSeen := [],
    perIPEnabled := false, perIPLimiters := [], perIPRate := 0, perIPBurst := 0,
    pfx4 := 0, pfx6 := 0 }

/-- `NewEmergencyFilter`: a nil or disabled configuration yields the zero
filter (which allows everything); otherwise the limiters and caches are set
up, with the per-address machinery only when `PerIP.Enabled`. -/
def NewEmergencyFilter (cfg : Option EmergencyFilterConfig) : EmergencyFilter :=
  match cfg with
  | none => EmergencyFilter.zero
  | some c =>
    if !c.enabled then EmergencyFilter.zero
    else
      let base : EmergencyFilter :=
        { enabled := true, newKeyLimiter := Limiter.new c.newKeysRate c.newKeysBurst 0,
          recentSeen := [], perIPEnabled := false, perIPLimiters := [], perIPRate := 0,
          perIPBurst := 0, pfx4 := 0, pfx6 := 0 }
      if c.perIPOn then
        { base with perIPEnabled := true, perIPRate := c.perIPConfRate,
                    perIPBurst := c.perIPConfBurst, pfx4 := c.pfx4, pfx6 := c.pfx6 }
      else base

/-- The per-address stage of `Match`: when enabled and a non-empty remote
address is present, normalize it, look up or create its limiter (the fresh
limiter is added to the cache, then `Allow` mutates the shared instance), and
return the rejection reason on denial.  Otherwise a no-op. -/
def EmergencyFilter.perIPStep (f : EmergencyFilter) (now : ℚ) (meta : ReqMeta) :
    Option String × EmergencyFilter :=
  if f.perIPEnabled then
    match meta.remoteIP with
    | some ip =>
      if ip != "" then
        let key := normalizeIPWithOptionalPrefixes ip f.pfx4 f.pfx6
        let lim := (f.perIPLimiters.get key).getD (Limiter.new f.perIPRate f.perIPBurst now)
        let out := lim.allowAt now
        let f2 := { f with perIPLimiters := f.perIPLimiters.add key out.2 }
        if out.1 then (none, f2)
        else (some "blocked: emergency per-ip limit for new pubkeys exceeded", f2)
      else (none, f)
    | none => (none, f)
  else (none, f)

/-- `EmergencyFilter.Match` at instant `now`: disabled filters and events with
no public key pass; a recently-seen key passes without touching a limiter;
otherwise the per-address stage runs first and a denial rejects before the
global limiter is consulted; the global limiter decides the rest, and only a
full success records the key as recently seen. -/
def EmergencyFilter.Match (f : EmergencyFilter) (now : ℚ) (ev : Event) (meta : ReqMeta) :
    (Bool × Option String) × EmergencyFilter :=
  if !f.enabled then ((true, none), f)
  else if ev.pubKey == "" then ((true, none), f)
  else if (f.recentSeen.get ev.pubKey).isSome then ((true, none), f)
  else
    match f.perIPStep now meta with
    | (some msg, f2) => ((false, some msg), f2)
    | (none, f2) =>
      let out := f2.newKeyLimiter.allowAt now
      let f3 := { f2 with newKeyLimiter := out.2 }
      if out.1 then
        ((true, none), { f3 with recentSeen := f3.recentSeen.add ev.pubKey () })
      else
        ((false, some "blocked: emergency global limit for new pubkeys exceeded"), f3)

/-! ## Claims about the emergency filter -/

/-- The per-address stage only ever touches the per-address limiter cache. -/
theorem perIPStep_frame (f : EmergencyFilter) (now : ℚ) (meta : ReqMeta) :
    ((f.perIPStep now meta).2).recentSeen = f.recentSeen ∧
    ((f.perIPStep now meta).2).newKeyLimiter = f.newKeyLimiter := by
  unfold EmergencyFilter.perIPStep
  split
  · match meta.remoteIP with
    | some ip =>
      simp only []
      split
      · split <;> exact ⟨rfl, rfl⟩
      · exact ⟨rfl, rfl⟩
    | none => exact ⟨rfl, rfl⟩
  · exact ⟨rfl, rfl⟩

/-- C2: `EmergencyFilter.Match` allows immediately (touching nothing) for an
empty public key or a recently-seen one; otherwise, with per-address
throttling enabled and a remote address available, a per-address denial
rejects while leaving the global limiter and the seen-cache untouched; and
the public key ends up in the seen-cache exactly when the event is allowed,
in which case the seen-cache is the old one plus that key. -/
theorem emergency_match_order (f : EmergencyFilter) (now : ℚ) (ev : Event) (meta : ReqMeta) :
    (ev.pubKey = "" → f.Match now ev meta = ((true, none), f)) ∧
    ((f.recentSeen.get ev.pubKey).isSome = true → f.Match now ev meta = ((true, none), f)) ∧
    (f.enabled = true → ev.pubKey ≠ "" → f.recentSeen.get ev.pubKey = none →
      f.perIPEnabled = true → ∀ ip, meta.remoteIP = some ip → ip ≠ "" →
      (((f.perIPLimiters.get (normalizeIPWithOptionalPrefixes ip f.pfx4 f.pfx6)).getD
          (Limiter.new f.perIPRate f.perIPBurst now)).allowAt now).1 = false →
      (f.Match now ev meta).1 =
          (false, some "blocked: emergency per-ip limit for new pubkeys exceeded") ∧
        ((f.Match now ev meta).2).newKeyLimiter = f.newKeyLimiter ∧
        ((f.Match now ev meta).2).recentSeen = f.recentSeen) ∧
    (f.enabled = true → ev.pubKey ≠ "" → f.recentSeen.get ev.pubKey = none →
      (((((f.Match now ev meta).2).recentSeen.get ev.pubKey).isSome ↔
          (f.Match now ev meta).1.1 = true) ∧
        ((f.Match now ev meta).1.1 = true →
          ((f.Match now ev meta).2).recentSeen = f.recentSeen.add ev.pubKey ()))) := by
  refine ⟨?_, ?_, ?_, ?_⟩
  · intro hpk
    unfold EmergencyFilter.Match
    by_cases hen : f.enabled = true
    · simp [hen, hpk]
    · simp [Bool.not_eq_true] at hen
      simp [hen]
  · intro hseen
    unfold EmergencyFilter.Match
    by_cases hen : f.enabled = true
    · by_cases hpk : ev.pubKey = ""
      · simp [hen, hpk]
      · simp [hen, hpk, hseen]
    · simp [Bool.not_eq_true] at hen
      simp [hen]
  · intro hen hpk hseen hper ip hip hipne hdeny
    have hpkb : (ev.pubKey == "") = false := beq_eq_false_iff_ne.mpr hpk
    have hseenb : (f.recentSeen.get ev.pubKey).isSome = false := by rw [hseen]; rfl
    have hstep : f.perIPStep now meta =
        (some "blocked: emergency per-ip limit for new pubkeys exceeded",
         { f with perIPLimiters :=
                    f.perIPLimiters.add (normalizeIPWithOptionalPrefixes ip f.pfx4 f.pfx6)
                      (((f.perIPLimiters.get
                          (normalizeIPWithOptionalPrefixes ip f.pfx4 f.pfx6)).getD
                        (Limiter.new f.perIPRate f.perIPBurst now)).allowAt now).2 }) := by
      unfold EmergencyFilter.perIPStep
      rw [if_pos hper, hip]
      simp only [hipne, hdeny]
      simp [hipne]
    unfold EmergencyFilter.Match
    rw [hstep]
    simp [hen, hpkb, hseenb]
  · intro hen hpk hseen
    have hpkb : (ev.pubKey == "") = false := beq_eq_false_iff_ne.mpr hpk
    have hseenb : (f.recentSeen.get ev.pubKey).isSome = false := by rw [hseen]; rfl
    have hframe := perIPStep_frame f now meta
    unfold EmergencyFilter.Match
    simp only [hen, hpkb, hseenb, Bool.not_true, Bool.false_eq_true, if_false]
    rcases hout : f.perIPStep now meta with ⟨msg, f2⟩
    rw [hout] at hframe
    cases msg with
    | some m =>
      simp only []
      constructor
      · rw [hframe.1, hseen]
        simp
      · intro hcontra
        simp at hcontra
    | none =>
      simp only []
      by_cases hg : (f2.newKeyLimiter.allowAt now).1 = true
      · simp only [hg, if_true, if_pos rfl]
        constructor
        · rw [Cache.get_add_self]
          simp
        · intro _
          rw [hframe.1]
      · have hg2 : (f2.newKeyLimiter.allowAt now).1 = false := by
          simpa using hg
        simp only [hg2, Bool.false_eq_true, if_false]
        constructor
        · rw [hframe.1, hseen]
          simp
        · intro hcontra
          simp at hcontra

/-- Enabled filter for the C2 witness: per-address throttling on with a
zero-rate, zero-burst limiter already cached for `1.2.3.4` (no aggregation
prefixes). -/
def emFW : EmergencyFilter :=
  { enabled := true, newKeyLimiter := Limiter.new 1 1 0, recentSeen := [],
    perIPEnabled := true, perIPLimiters := [("1.2.3.4", ⟨0, 0, 0, 0⟩)],
    perIPRate := 0, perIPBurst := 0, pfx4 := 0, pfx6 := 0 }

/-- Unseen identity for the C2 witness. -/
def emEvW : Event := { kind := 1, pubKey := "carol", content := "", tags := [] }

/-- Metadata carrying the throttled remote address. -/
def emMetaW : ReqMeta := { remoteIP := some "1.2.3.4" }

/-- Witness for C2: the exhausted per-address limiter rejects the event and
neither the global limiter nor the seen-cache is touched. -/
theorem emergency_match_order_witness :
    emFW.enabled = true ∧
    (emFW.Match 5 emEvW emMetaW).1 =
      (false, some "blocked: emergency per-ip limit for new pubkeys exceeded") ∧
    ((emFW.Match 5 emEvW emMetaW).2).newKeyLimiter = emFW.newKeyLimiter ∧
    ((emFW.Match 5 emEvW emMetaW).2).recentSeen = emFW.recentSeen := by
  have hdeny : (((emFW.perIPLimiters.get
      (normalizeIPWithOptionalPrefixes "1.2.3.4" emFW.pfx4 emFW.pfx6)).getD
      (Limiter.new emFW.perIPRate emFW.perIPBurst 5)).allowAt 5).1 = false := by
    have hkey : normalizeIPWithOptionalPrefixes "1.2.3.4" emFW.pfx4 emFW.pfx6 = "1.2.3.4" := by
      decide
    rw [hkey]
    simp [emFW, Cache.get, Limiter.allowAt, List.find?]
    norm_num
  have h := (emergency_match_order emFW 5 emEvW emMetaW).2.2.1 rfl (by decide) rfl rfl
    "1.2.3.4" rfl (by decide) hdeny
  exact ⟨rfl, h.1, h.2.1, h.2.2⟩

/-- C10: a filter built from a nil configuration, or one with `Enabled`
false, allows every event unconditionally and leaves its (zero) state
untouched. -/
theorem emergency_disabled_allows_all (cfg : Option EmergencyFilterConfig)
    (h : cfg = none ∨ ∃ c, cfg = some c ∧ c.enabled = false) :
    ∀ (now : ℚ) (ev : Event) (meta : ReqMeta),
      (NewEmergencyFilter cfg).Match now ev meta = ((true, none), NewEmergencyFilter cfg) := by
  have hzero : NewEmergencyFilter cfg = EmergencyFilter.zero := by
    rcases h with h | ⟨c, hc, hce⟩
    · rw [h]
      rfl
    · rw [hc]
      simp [NewEmergencyFilter, hce]
  intro now ev meta
  rw [hzero]
  rfl

/-- A disabled configuration for the C10 witness. -/
def emDisabledCfgW : EmergencyFilterConfig :=
  { enabled := false, newKeysRate := 5, newKeysBurst := 5, perIPOn := true,
    perIPConfRate := 1, perIPConfBurst := 1, pfx4 := 24, pfx6 := 64 }

/-- Witness for C10: both the nil configuration and a disabled one allow a
concrete event with state untouched. -/
theorem emergency_disabled_allows_all_witness :
    (NewEmergencyFilter none).Match 3 emEvW { remoteIP := some "9.9.9.9" } =
      ((true, none), NewEmergencyFilter none) ∧
    (NewEmergencyFilter (some emDisabledCfgW)).Match 3 emEvW { remoteIP := some "9.9.9.9" } =
      ((true, none), NewEmergencyFilter (some emDisabledCfgW)) := by
  constructor
  · exact emergency_disabled_allows_all none (Or.inl rfl) 3 emEvW { remoteIP := some "9.9.9.9" }
  · exact emergency_disabled_allows_all _ (Or.inr ⟨_, rfl, rfl⟩) 3 emEvW
      { remoteIP := some "9.9.9.9" }

/-! ## policy/ephemeral_chat_filter.go -/

/-- `config.EphemeralChatFilterConfig` (fields used by `Match`).  The Go names
`MaxCapsRatio` and `RequiredPoWOnLimit` are `capsShareMax` and `powOnLimit`
here. -/
structure EphemeralChatFilterConfig where
  enabled : Bool
  kinds : List Int
  minDelay : ℚ
  capsShareMax : ℚ
  minLettersForCapsCheck : Int
  maxRepeatChars : Nat
  maxWordLength : Nat
  blockZalgo : Bool
  rateLimitRate : ℚ
  rateLimitBurst : ℚ
  powOnLimit : Nat
deriving DecidableEq, Repr

/-- `EphemeralChatFilter`: config plus the last-seen and limiter caches. -/
structure EphemeralChatFilter where
  cfg : EphemeralChatFilterConfig
  lastSeen : Cache ℚ
  limiters : Cache Limiter
deriving DecidableEq, Repr

/-- The distinct rejection reasons of the chat filter (Go formats these as
error strings; their identity is what the checks' short-circuit order
exposes). -/
inductive ChatReason
  | delay
  | caps
  | repeatChars
  | longWord
  | zalgo
  | rateLimited
deriving DecidableEq, Repr

/-- Letter and uppercase-letter counts of the content (Go iterates runes with
`unicode.IsLetter`/`unicode.IsUpper`; the Unicode tables are external to the
repository and are modelled on the ASCII range, which the configured checks
target). -/
def letterCounts (cs : List Char) : Nat × Nat :=
  cs.foldl
    (fun acc c =>
      if c.isAlpha then (acc.1 + 1, if c.isUpper then acc.2 + 1 else acc.2)
      else acc)
    (0, 0)

/-- The repetition scan: running count of the current run of identical
characters, rejecting as soon as it reaches the maximum. -/
def repeatScan (maxRep : Nat) : Nat → Char → List Char → Bool
  | _, _, [] => false
  | count, prev, c :: rest =>
    let count2 := if c == prev then count + 1 else 1
    if maxRep ≤ count2 then true else repeatScan maxRep count2 c rest

/-- The character-repetition check of `Match`: only run when a maximum is
configured and the content is at least that long. -/
def repeatReject (maxRep : Nat) (cs : List Char) : Bool :=
  if 0 < maxRep ∧ maxRep ≤ cs.length then
    match cs with
    | [] => false
    | c :: rest => repeatScan maxRep 1 c rest
  else false

/-- Go `regexp` whitespace (`\s` is ASCII `[\t\n\f\r ]`). -/
def isGoSpace (c : Char) : Bool :=
  c == ' ' || c == '\t' || c == '\n' || c == '\r' || c == '\x0c'

/-- Whether some run of at least `n` consecutive non-whitespace characters
occurs (the compiled word regex matches somewhere). -/
def hasLongToken (n : Nat) : Nat → List Char → Bool
  | _, [] => false
  | run, c :: rest =>
    if !isGoSpace c then
      if n ≤ run + 1 then true else hasLongToken n (run + 1) rest
    else hasLongToken n 0 rest

/-- The zalgo combining-mark ranges of the compiled regex. -/
def isZalgoChar (c : Char) : Bool :=
  let n := c.toNat
  (0x300 ≤ n && n ≤ 0x36F) || (0x1AB0 ≤ n && n ≤ 0x1AFF) ||
    (0x1DC0 ≤ n && n ≤ 0x1DFF) || (0x20D0 ≤ n && n ≤ 0x20FF) ||
    (0xFE20 ≤ n && n ≤ 0xFE2F)

/-- The inter-post-delay stage of `Match`: reject when the identity's last
recorded post is too recent; otherwise record `now` as its last post (the
recording happens regardless of the outcome of the later checks). -/
def EphemeralChatFilter.delayStep (f : EphemeralChatFilter) (now : ℚ) (ev : Event) :
    Option ChatReason × EphemeralChatFilter :=
  if 0 < f.cfg.minDelay then
    match f.lastSeen.get ev.pubKey with
    | some last =>
      if now - last < f.cfg.minDelay then (some ChatReason.delay, f)
      else (none, { f with lastSeen := f.lastSeen.add ev.pubKey now })
    | none => (none, { f with lastSeen := f.lastSeen.add ev.pubKey now })
  else (none, f)

/-- The capital-letter check of `Match` as a predicate: enabled
(`MaxCapsRatio > 0`), more letters than the effective minimum (the configured
one, defaulting to 20 when non-positive), and an uppercase share strictly
above the maximum. -/
def capsReject (cfg : EphemeralChatFilterConfig) (cs : List Char) : Bool :=
  let counts := letterCounts cs
  let minLetters : Int :=
    if cfg.minLettersForCapsCheck ≤ 0 then 20 else cfg.minLettersForCapsCheck
  decide (0 < cfg.capsShareMax) && decide (minLetters < (counts.1 : Int)) &&
    decide (cfg.capsShareMax < (counts.2 : ℚ) / (counts.1 : ℚ))

/-- The checks of `Match` that follow the capital-letter check: character
repetition, over-long token, zalgo, then the per-pubkey token bucket with the
proof-of-work override. -/
def EphemeralChatFilter.postCaps (f : EphemeralChatFilter) (pow : Event → Nat → Bool)
    (now : ℚ) (ev : Event) (f1 : EphemeralChatFilter) :
    (Bool × Option ChatReason) × EphemeralChatFilter :=
  if repeatReject f.cfg.maxRepeatChars ev.content.data then
    ((false, some ChatReason.repeatChars), f1)
  else if 0 < f.cfg.maxWordLength && hasLongToken f.cfg.maxWordLength 0 ev.content.data then
    ((false, some ChatReason.longWord), f1)
  else if f.cfg.blockZalgo && ev.content.data.any isZalgoChar then
    ((false, some ChatReason.zalgo), f1)
  else
    let lim := (f1.limiters.get ev.pubKey).getD
      (Limiter.new f.cfg.rateLimitRate f.cfg.rateLimitBurst now)
    let out := lim.allowAt now
    let f2 := { f1 with limiters := f1.limiters.add ev.pubKey out.2 }
    if out.1 then ((true, none), f2)
    else if pow ev f.cfg.powOnLimit then ((true, none), f2)
    else ((false, some ChatReason.rateLimited), f2)

/-- `EphemeralChatFilter.Match` at instant `now`.  `pow` models the external
`nip.IsPoWValid` collaborator.  The checks run in source order, each with its
own reason: inter-post delay, capital-letter share, and the remaining
checks. -/
def EphemeralChatFilter.Match (f : EphemeralChatFilter) (pow : Event → Nat → Bool)
    (now : ℚ) (ev : Event) : (Bool × Option ChatReason) × EphemeralChatFilter :=
  if !(f.cfg.enabled && f.cfg.kinds.contains ev.kind) then ((true, none), f)
  else
    match f.delayStep now ev with
    | (some r, f1) => ((false, some r), f1)
    | (none, f1) =>
      if capsReject f.cfg ev.content.data then ((false, some ChatReason.caps), f1)
      else f.postCaps pow now ev f1

/-! ## Claims about the chat filter's capital-letter check -/

/-- No check after the capital-letter one can produce the caps reason. -/
theorem postCaps_fst_ne_caps (f : EphemeralChatFilter) (pow : Event → Nat → Bool)
    (now : ℚ) (ev : Event) (f1 : EphemeralChatFilter) :
    (f.postCaps pow now ev f1).1 ≠ (false, some ChatReason.caps) := by
  unfold EphemeralChatFilter.postCaps
  split
  · simp
  · split
    · simp
    · split
      · simp
      · simp only []
        split
        · simp
        · split <;> simp

/-- The chat filter config for the C4 statements: FloodGuard with
`maxCapsRatio = 0.7`, `minLetters = 20`, all later checks disabled, and a
fresh one-token limiter per identity. -/
def chatCfgW : EphemeralChatFilterConfig :=
  { enabled := true, kinds := [42], minDelay := 0, capsShareMax := 7/10,
    minLettersForCapsCheck := 20, maxRepeatChars := 0, maxWordLength := 0,
    blockZalgo := false, rateLimitRate := 1, rateLimitBurst := 1, powOnLimit := 20 }

/-- Fresh chat filter for the C4 statements. -/
def chatFW : EphemeralChatFilter := { cfg := chatCfgW, lastSeen := [], limiters := [] }

/-- A 20-letter all-uppercase chat message. -/
def chatCexEv : Event :=
  { kind := 42, pubKey := "dave", content := "ABABABABABABABABABAB", tags := [] }

/-- The whole `Match` pipeline under a passing delay stage, as one equation. -/
theorem chat_match_unfold (f : EphemeralChatFilter) (pow : Event → Nat → Bool) (now : ℚ)
    (ev : Event) (f1 : EphemeralChatFilter)
    (hen : f.cfg.enabled = true)
    (hkind : f.cfg.kinds.contains ev.kind = true)
    (hds : f.delayStep now ev = (none, f1)) :
    f.Match pow now ev =
      (if capsReject f.cfg ev.content.data then ((false, some ChatReason.caps), f1)
       else f.postCaps pow now ev f1) := by
  have hguard : (f.cfg.enabled && f.cfg.kinds.contains ev.kind) = true := by
    rw [hen, hkind]
    rfl
  unfold EphemeralChatFilter.Match
  rw [hguard, hds]
  rfl

/-- Counterexample to C4 as stated: a message with exactly 20 letters, all
uppercase, at `maxCapsRatio = 0.7` and `minLetters = 20`.  Its letter count
is not below the configured minimum and its uppercase fraction exceeds the
maximum, so the claim says it is checked and rejected — but the code skips
the check (it requires strictly more letters than the minimum) and the event
passes. -/
theorem chat_caps_boundary_counterexample :
    (letterCounts chatCexEv.content.data).1 = 20 ∧
    (letterCounts chatCexEv.content.data).2 = 20 ∧
    chatFW.cfg.minLettersForCapsCheck = 20 ∧
    ¬((letterCounts chatCexEv.content.data).1 < 20) ∧
    chatFW.cfg.capsShareMax <
      ((letterCounts chatCexEv.content.data).2 : ℚ) /
        ((letterCounts chatCexEv.content.data).1 : ℚ) ∧
    (chatFW.Match (fun _ _ => false) 5 chatCexEv).1 = (true, none) := by
  refine ⟨by decide, by decide, by decide, by decide, ?_, ?_⟩
  · show (7 : ℚ)/10 < ((letterCounts chatCexEv.content.data).2 : ℚ) /
      ((letterCounts chatCexEv.content.data).1 : ℚ)
    rw [show (letterCounts chatCexEv.content.data) = (20, 20) from by decide]
    norm_num
  · have hds : chatFW.delayStep 5 chatCexEv = (none, chatFW) := by
      unfold EphemeralChatFilter.delayStep
      rw [if_neg (by norm_num [chatFW, chatCfgW])]
    have hcr : capsReject chatFW.cfg chatCexEv.content.data = false := by
      unfold capsReject
      rw [show (letterCounts chatCexEv.content.data) = (20, 20) from by decide]
      simp [chatFW, chatCfgW]
    rw [chat_match_unfold chatFW (fun _ _ => false) 5 chatCexEv chatFW rfl (by decide) hds]
    rw [hcr]
    simp only [Bool.false_eq_true, if_false]
    unfold EphemeralChatFilter.postCaps
    rw [if_neg (by decide), if_neg (by decide), if_neg (by decide)]
    simp only [chatFW, chatCfgW, Cache.get, List.find?, Option.getD, Limiter.new,
      Limiter.allowAt]
    norm_num

/-- C4 (amended): the capital-letter check counts letter characters only and
is skipped exactly when the total letter count does not exceed (is at most)
the effective configured minimum; when it runs, it rejects with the caps
reason exactly when the uppercase fraction strictly exceeds the configured
maximum ratio. -/
theorem chat_caps_check (f : EphemeralChatFilter) (pow : Event → Nat → Bool) (now : ℚ)
    (ev : Event)
    (hen : f.cfg.enabled = true)
    (hkind : f.cfg.kinds.contains ev.kind = true)
    (hd : (f.delayStep now ev).1 = none)
    (hcaps : 0 < f.cfg.capsShareMax) :
    ((f.Match pow now ev).1 = (false, some ChatReason.caps) ↔
      ((if f.cfg.minLettersForCapsCheck ≤ 0 then 20 else f.cfg.minLettersForCapsCheck) <
          ((letterCounts ev.content.data).1 : Int) ∧
        f.cfg.capsShareMax <
          ((letterCounts ev.content.data).2 : ℚ) / ((letterCounts ev.content.data).1 : ℚ))) ∧
    (((letterCounts ev.content.data).1 : Int) ≤
        (if f.cfg.minLettersForCapsCheck ≤ 0 then 20 else f.cfg.minLettersForCapsCheck) →
      (f.Match pow now ev).1 ≠ (false, some ChatReason.caps)) := by
  rcases hds : f.delayStep now ev with ⟨r, f1⟩
  rw [hds] at hd
  simp only at hd
  subst hd
  rw [chat_match_unfold f pow now ev f1 hen hkind hds]
  by_cases hc : capsReject f.cfg ev.content.data = true
  · unfold capsReject at hc
    simp only [Bool.and_eq_true, decide_eq_true_eq] at hc
    rw [if_pos (by unfold capsReject; simp only [Bool.and_eq_true, decide_eq_true_eq]; exact hc)]
    constructor
    · simp only [true_iff]
      exact ⟨hc.1.2, hc.2⟩
    · intro hle
      exact absurd hc.1.2 (by omega)
  · have hcf : capsReject f.cfg ev.content.data = false := by simpa using hc
    rw [if_neg (by rw [hcf]; simp)]
    unfold capsReject at hcf
    simp only [Bool.and_eq_true, decide_eq_true_eq, Bool.and_eq_false_iff,
      decide_eq_false_iff_not, not_lt] at hcf
    constructor
    · constructor
      · intro habs
        exact absurd habs (postCaps_fst_ne_caps f pow now ev f1)
      · intro hrhs
        rcases hcf with (hcf | hcf) | hcf
        · exact absurd hcaps (not_lt.mpr hcf)
        · omega
        · exact absurd hrhs.2 (not_lt.mpr hcf)
    · intro _
      exact postCaps_fst_ne_caps f pow now ev f1

/-- A 25-letter message with 23 uppercase letters. -/
def chatEv25 : Event :=
  { kind := 42, pubKey := "dave", content := "ABABABABABABABABABABABAxy", tags := [] }

/-- A 10-letter message with 9 uppercase letters. -/
def chatEv10 : Event :=
  { kind := 42, pubKey := "dave", content := "ABABABABAx", tags := [] }

/-- Witness for C4 (amended): at `maxCapsRatio = 0.7`, `minLetters = 20`, the
25-letter/23-uppercase message is rejected by the caps check and the
10-letter/9-uppercase message is not caps-checked (and in fact passes). -/
theorem chat_caps_check_witness :
    chatFW.cfg.enabled = true ∧
    (chatFW.Match (fun _ _ => false) 5 chatEv25).1 = (false, some ChatReason.caps) ∧
    (chatFW.Match (fun _ _ => false) 5 chatEv10).1 ≠ (false, some ChatReason.caps) ∧
    (chatFW.Match (fun _ _ => false) 5 chatEv10).1 = (true, none) := by
  have hds25 : chatFW.delayStep 5 chatEv25 = (none, chatFW) := by
    unfold EphemeralChatFilter.delayStep
    rw [if_neg (by norm_num [chatFW, chatCfgW])]
  have hds10 : chatFW.delayStep 5 chatEv10 = (none, chatFW) := by
    unfold EphemeralChatFilter.delayStep
    rw [if_neg (by norm_num [chatFW, chatCfgW])]
  have h25 := chat_caps_check chatFW (fun _ _ => false) 5 chatEv25 rfl (by decide)
    (by rw [hds25]) (by norm_num [chatFW, chatCfgW])
  have h10 := chat_caps_check chatFW (fun _ _ => false) 5 chatEv10 rfl (by decide)
    (by rw [hds10]) (by norm_num [chatFW, chatCfgW])
  refine ⟨rfl, ?_, ?_, ?_⟩
  · apply h25.1.mpr
    rw [show (letterCounts chatEv25.content.data) = (25, 23) from by decide]
    constructor
    · norm_num [chatFW, chatCfgW]
    · norm_num [chatFW, chatCfgW]
  · apply h10.2
    rw [show (letterCounts chatEv10.content.data) = (10, 9) from by decide]
    norm_num [chatFW, chatCfgW]
  · have hcr : capsReject chatFW.cfg chatEv10.content.data = false := by
      unfold capsReject
      rw [show (letterCounts chatEv10.content.data) = (10, 9) from by decide]
      simp [chatFW, chatCfgW]
    rw [chat_match_unfold chatFW (fun _ _ => false) 5 chatEv10 chatFW rfl (by decide) hds10]
    rw [hcr]
    simp only [Bool.false_eq_true, if_false]
    unfold EphemeralChatFilter.postCaps
    rw [if_neg (by decide), if_neg (by decide), if_neg (by decide)]
    simp only [chatFW, chatCfgW, Cache.get, List.find?, Option.getD, Limiter.new,
      Limiter.allowAt]
    norm_num

/-! ## C7: the unsynchronized get-or-create of `getLimiter`
(rate_limiter_filter.go lines 116-123 and the identical size_filter.go chat
`getLimiter`).  The hashicorp cache makes each `Get` and each `Add` atomic,
but the Get-then-Add sequence is not one atomic operation, so two concurrent
first-time callers for the same key can interleave.  The model runs two
threads, each performing the two atomic steps of `getLimiter` on one shared
key; limiter instances are identified by allocation order (pointer
identity). -/

/-- Shared cache slot (the key's entry), the allocator, and each thread's
observed `Get` result and returned limiter instance. -/
structure RaceState where
  cache : Option Nat
  nextInst : Nat
  got1 : Option (Option Nat)
  ret1 : Option Nat
  got2 : Option (Option Nat)
  ret2 : Option Nat
deriving DecidableEq, Repr

/-- The four atomic operations: each thread's `Get`, and its
create-and-`Add`-then-return step (which returns the cached instance instead
when its `Get` had hit). -/
inductive RaceOp
  | get1
  | put1
  | get2
  | put2
deriving DecidableEq, Repr

/-- One atomic step of the two-thread get-or-create model. -/
def raceStep (st : RaceState) : RaceOp → RaceState
  | RaceOp.get1 => { st with got1 := some st.cache }
  | RaceOp.put1 =>
    match st.got1 with
    | some (some l) => { st with ret1 := some l }
    | some none =>
      { st with cache := some st.nextInst, ret1 := some st.nextInst,
                nextInst := st.nextInst + 1 }
    | none => st
  | RaceOp.get2 => { st with got2 := some st.cache }
  | RaceOp.put2 =>
    match st.got2 with
    | some (some l) => { st with ret2 := some l }
    | some none =>
      { st with cache := some st.nextInst, ret2 := some st.nextInst,
                nextInst := st.nextInst + 1 }
    | none => st

/-- Run a schedule (interleaving) from a state. -/
def raceRun (ops : List RaceOp) (st : RaceState) : RaceState :=
  ops.foldl raceStep st

/-- Initial state: empty cache slot, no instance allocated. -/
def raceInit : RaceState := ⟨none, 0, none, none, none, none⟩

/-- C7 exhibit (the claim fails on the code): under the interleaving
`Get1, Get2, Add1, Add2` both first-time callers miss, each creates and
installs its own limiter instance, the second `Add` overwrites the first, and
the two callers hold distinct instances — thread 1 charges an instance that
is no longer the installed one, so one identity's budget is split across
duplicate limiters, contrary to the single-winning-instance guarantee.  The
serialized schedule, by contrast, hands both callers the same instance. -/
theorem getLimiter_race_two_instances :
    (raceRun [RaceOp.get1, RaceOp.get2, RaceOp.put1, RaceOp.put2] raceInit).ret1 = some 0 ∧
    (raceRun [RaceOp.get1, RaceOp.get2, RaceOp.put1, RaceOp.put2] raceInit).ret2 = some 1 ∧
    (raceRun [RaceOp.get1, RaceOp.get2, RaceOp.put1, RaceOp.put2] raceInit).cache = some 1 ∧
    (raceRun [RaceOp.get1, RaceOp.get2, RaceOp.put1, RaceOp.put2] raceInit).ret1 ≠
      (raceRun [RaceOp.get1, RaceOp.get2, RaceOp.put1, RaceOp.put2] raceInit).ret2 ∧
    (raceRun [RaceOp.get1, RaceOp.get2, RaceOp.put1, RaceOp.put2] raceInit).ret1 ≠
      (raceRun [RaceOp.get1, RaceOp.get2, RaceOp.put1, RaceOp.put2] raceInit).cache ∧
    (raceRun [RaceOp.get1, RaceOp.put1, RaceOp.get2, RaceOp.put2] raceInit).ret1 =
      (raceRun [RaceOp.get1, RaceOp.put1, RaceOp.get2, RaceOp.put2] raceInit).ret2 := by
  decide
